import Mathlib

/-!
Shallow embedding of the chess_lib engine (src/) in Lean 4.

Modelling conventions:
* `Bitboard` (a Rust `u64`) is a `Nat` kept below `2 ^ 64`; every operation
  that can overflow 64 bits (left shift, negation, subtraction) reduces
  modulo `2 ^ 64` exactly where the `u64` semantics wraps.
* Rust arrays are Lean `List`s; an index read uses `getD` with the type's
  null/zero default.  Out-of-bounds accesses panic in Rust; every theorem
  below carries hypotheses keeping indices in bounds, so the `getD` default
  is never observed by a proved statement (claim C10 is exactly about those
  bounds).
* The `for each set bit` loop (`Bitboard::map_by_square`, which pops
  least-significant bits) yields square indices in ascending order, so it is
  embedded as a filtered `List.range 64`.
* `rook_moves`/`bishop_moves` read the magic tables filled by
  `init_magics`; a successful initialization makes the lookup extensionally
  equal to the slow enumerator `rook_attack`/`bishop_attack` restricted to
  `occ AND mask`, which in turn equals the slow enumerator on `occ` itself
  (off-ray and edge blockers never change the walk).  They are therefore
  embedded directly as the slow enumerators, which are ported verbatim,
  including their final `AND NOT edges` stripping step.
-/

namespace ChessLib

/-- 2 ^ 64, the modulus of Rust u64 arithmetic. -/
def U64 : Nat := 2 ^ 64

/-- Bitwise complement on u64: `!x`. -/
def bnot (b : Nat) : Nat := b ^^^ (U64 - 1)

/-- `x << n` with u64 truncation. -/
def shl (b n : Nat) : Nat := (b <<< n) % U64

/-- `x >> n` (never overflows). -/
def shr (b n : Nat) : Nat := b >>> n

/-- `Bitboard::and_not`: `self & !rhs`. -/
def andNot (b rhs : Nat) : Nat := b &&& bnot rhs

/-- `Bitboard::more_than_one`: `(x - 1) & x > 0` (wrapping sub; for `x = 0`
the wrapped value ANDs to 0 exactly as the saturating Nat sub does). -/
def moreThanOne (b : Nat) : Bool := (b - 1) &&& b > 0

/-- `Bitboard::popcnt` (valid for values below 2 ^ 64). -/
def popcnt (b : Nat) : Nat := ((List.range 64).filter (fun i => b.testBit i)).length

/-- Squares of the set bits in ascending order: the sequence produced by
`Bitboard::map_by_square` (repeated `pop_square`, least bit first). -/
def squaresOf (b : Nat) : List Nat := (List.range 64).filter (fun i => b.testBit i)

/-- One-bit boards of the set bits in ascending order: the sequence produced
by `Bitboard::map_by_board` (`copy & -copy`, clear, repeat). -/
def boardsOf (b : Nat) : List Nat := (squaresOf b).map (fun s => shl 1 s)

/-- `Bitboard::get_square`: index of the least set bit, 64 when empty
(`trailing_zeros` of a u64 zero is 64, the NULL square). -/
def getSquare (b : Nat) : Nat := ((List.range 64).find? (fun i => b.testBit i)).getD 64

/-- `Bitboard::from(square)`: `1 << square` (u64-truncated, so NULL gives 0). -/
def sqBB (s : Nat) : Nat := shl 1 s

/-- FILE_BB: `0x0101010101010101 << f`. -/
def fileBB (f : Nat) : Nat := shl 0x0101010101010101 f

/-- RANK_BB: `0xFF << (8 * r)`. -/
def rankBB (r : Nat) : Nat := shl 0xFF (8 * r)

/-- `Square::file`: `self & 7`. -/
def fileOf (s : Nat) : Nat := s &&& 7

/-- `Square::rank`: `(self >> 3) & 7` (note the mask: the NULL square 64 has
rank 0). -/
def rankOf (s : Nat) : Nat := (s >>> 3) &&& 7

/-- `Square::create(file, rank)`: `file + 8 * rank`. -/
def sqCreate (f r : Nat) : Nat := f + 8 * r

/-- `Square::is_ok`: raw index strictly below 64. -/
def sqIsOk (s : Nat) : Bool := s < 64

/-- `Square::NULL`. -/
def sqNULL : Nat := 64

/-- `Square::dist`: Chebyshev distance. -/
def sqDist (s t : Nat) : Nat :=
  max ((fileOf s) - (fileOf t) + ((fileOf t) - (fileOf s)))
      ((rankOf s) - (rankOf t) + ((rankOf t) - (rankOf s)))

/-- `Square::in_line`: same file, same rank, or same diagonal (false on
equal squares). -/
def inLine (s o : Nat) : Bool :=
  if s = o then false
  else if fileOf s = fileOf o || rankOf s = rankOf o then true
  else (fileOf s - fileOf o) + (fileOf o - fileOf s)
        = (rankOf s - rankOf o) + (rankOf o - rankOf s)

/-- `Square::in_line2` ported statement-for-statement: both the early
`return false` and the fall-through return `false`, so the function is
constantly false (the computed `cmp` is discarded). -/
def inLine2 (s o1 o2 : Nat) : Bool :=
  if inLine s o1 && inLine s o2 && inLine o1 o2 then
    let cmp := compare s o1
    if compare o1 o2 ≠ cmp then false else false
  else false

/-- Color: two values, White = 0, Black = 1. -/
inductive Color where
  | white
  | black
deriving DecidableEq, Repr

/-- Discriminant of the Rust enum. -/
def Color.toNat : Color → Nat
  | .white => 0
  | .black => 1

/-- `!color`. -/
def Color.opp : Color → Color
  | .white => .black
  | .black => .white

/-- `Color::pawn_push`: shift one rank forward (north for White, south for
Black). -/
def pawnPush (c : Color) (b : Nat) : Nat :=
  match c with
  | .white => shl b 8
  | .black => shr b 8

/-- `Rank::relative` with Rust release (wrapping u8) semantics:
`r + color * (7 - 2r)` wraps to `7 - r` for Black. -/
def rankRelative (r : Nat) (c : Color) : Nat :=
  (r + c.toNat * ((7 + 256 - 2 * r) % 256)) % 256

/-- `Square::relative`: same file, rank mirrored for Black. -/
def sqRelative (s : Nat) (c : Color) : Nat :=
  sqCreate (fileOf s) (rankRelative (rankOf s) c)

/-! Piece kinds are the Rust discriminants: Pawn 0, Knight 1, Bishop 2,
Rook 3, Queen 4, King 5.  A Piece is the packed `color << 3 | kind` byte
with NULL = 0xF. -/

def PAWN : Nat := 0
def KNIGHT : Nat := 1
def BISHOP : Nat := 2
def ROOK : Nat := 3
def QUEEN : Nat := 4
def KING : Nat := 5

/-- `Piece::NULL`. -/
def pNULL : Nat := 0xF

/-- `Piece::new(ty, color)`. -/
def pieceNew (ty : Nat) (c : Color) : Nat := c.toNat * 8 + ty

/-- `Piece::is_ok`. -/
def pieceIsOk (p : Nat) : Bool := p < 0xF && p % 8 < 6

/-- `Piece::kind` (`self & 7`; the 6/7 arms panic in the source and are
unreachable under the theorems' hypotheses). -/
def pieceKind (p : Nat) : Nat := p &&& 7

/-- `Piece::color` (`self >> 3`, 1 for Black; NULL maps to Black as in the
source match). -/
def pieceColor (p : Nat) : Color := if p >>> 3 = 1 then .black else .white

/-- `PType::value`: 100/300/300/500/900/0. -/
def ptValue (ty : Nat) : Int :=
  if ty = PAWN then 100
  else if ty = KNIGHT then 300
  else if ty = BISHOP then 300
  else if ty = ROOK then 500
  else if ty = QUEEN then 900
  else 0

/-! ## Leaper attack tables (init.rs)

Each init loop writes one 64-entry table; the per-square value is a pure
function of the square, embedded directly. -/

/-- Body of `init_pawn_attacks` for one square: east/west shifts with file
masking, then one rank up (White) or down (Black). -/
def pawnAttackFn (s : Nat) (c : Color) : Nat :=
  let square := sqBB s
  let horiz := andNot (shl square 1) (fileBB 0) ||| andNot (shr square 1) (fileBB 7)
  match c with
  | .white => shl horiz 8
  | .black => shr horiz 8

/-- Body of `init_knight_attacks` for one square. -/
def knightAttackFn (s : Nat) : Nat :=
  let square := sqBB s
  let shiftW := fun bb => andNot (shr bb 1) (fileBB 7)
  let shiftE := fun bb => andNot (shl bb 1) (fileBB 0)
  let nnw := shl (shiftW square) 16
  let nne := shl (shiftE square) 16
  let nww := shl (shiftW (shiftW square)) 8
  let nee := shl (shiftE (shiftE square)) 8
  let ssw := shr (shiftW square) 16
  let sse := shr (shiftE square) 16
  let sww := shr (shiftW (shiftW square)) 8
  let see := shr (shiftE (shiftE square)) 8
  nnw ||| nne ||| nww ||| nee ||| ssw ||| sse ||| sww ||| see

/-- Body of `init_king_attacks` for one square (diagonals come from the
pawn table). -/
def kingAttackFn (s : Nat) : Nat :=
  let square := sqBB s
  let diags := pawnAttackFn s .white ||| pawnAttackFn s .black
  let vert := shl square 8 ||| shr square 8
  let horz := andNot (shl square 1) (fileBB 0) ||| andNot (shr square 1) (fileBB 7)
  diags ||| vert ||| horz

/-- The 64-entry KNIGHT_ATTACKS static. -/
def knightAttacksTable : List Nat := (List.range 64).map knightAttackFn

/-- The 64-entry KING_ATTACKS static. -/
def kingAttacksTable : List Nat := (List.range 64).map kingAttackFn

/-- The 64x2 PAWN_ATTACKS static. -/
def pawnAttacksTable : List (List Nat) :=
  (List.range 64).map (fun s => [pawnAttackFn s .white, pawnAttackFn s .black])

/-- `init::knight_attack` (the engine-side lookup; bounds are claim C10). -/
def knightAttack (s : Nat) : Nat := if s < 64 then knightAttackFn s else 0

/-- `init::king_attack`. -/
def kingAttack (s : Nat) : Nat := if s < 64 then kingAttackFn s else 0

/-- `init::pawn_attack`. -/
def pawnAttack (s : Nat) (c : Color) : Nat := if s < 64 then pawnAttackFn s c else 0

/-! ## Slow slider enumeration (magic.rs `rook_attack` / `bishop_attack`)

The walk steps one shift at a time, ORs the reached square in before
testing, stops on the first square of `edges | occupied` (or off board),
and finally strips `edges`.  A ray needs at most 8 steps, so the loop is
run on fuel 8. -/

/-- The edge mask of `rook_attack`/`bishop_attack`: files A/H except the
square's own file, plus ranks 1/8 except the square's own rank. -/
def edgesOf (s : Nat) : Nat :=
  andNot (fileBB 0 ||| fileBB 7) (fileBB (fileOf s)) |||
  andNot (rankBB 0 ||| rankBB 7) (rankBB (rankOf s))

/-- One ray of the slider walk; `left` selects `<<` versus `>>` by `step`. -/
def rayWalk (mask : Nat) (left : Bool) (step : Nat) : Nat → Nat → Nat
  | 0, _ => 0
  | fuel + 1, copy =>
    let copy := if left then shl copy step else shr copy step
    copy ||| (if copy &&& mask ≠ 0 || copy = 0 then 0 else rayWalk mask left step fuel copy)

/-- `magic::rook_attack` ported verbatim, including the empty-occupancy
fast path and the final `AND NOT edges` stripping step. -/
def rookAttack (s occupied : Nat) : Nat :=
  let sqb := sqBB s
  let edges := edgesOf s
  if occupied = 0 then
    andNot (fileBB (fileOf s) ^^^ rankBB (rankOf s)) edges
  else
    let mask := edges ||| occupied
    let attack := rayWalk mask true 8 8 sqb ||| rayWalk mask false 8 8 sqb |||
                  rayWalk mask true 1 8 sqb ||| rayWalk mask false 1 8 sqb
    andNot attack edges

/-- `magic::bishop_attack` ported verbatim (no empty-occupancy fast path). -/
def bishopAttack (s occupied : Nat) : Nat :=
  let sqb := sqBB s
  let edges := edgesOf s
  let mask := occupied ||| edges
  let attack := rayWalk mask true 7 8 sqb ||| rayWalk mask false 7 8 sqb |||
                rayWalk mask true 9 8 sqb ||| rayWalk mask false 9 8 sqb
  andNot attack edges

/-- `magic::rook_moves`: the magic-table lookup; a successful
`init_magics` makes it extensionally the slow enumerator (see the header
comment), which is how it is embedded. -/
def rookMoves (s occ : Nat) : Nat := rookAttack s occ

/-- `magic::bishop_moves`. -/
def bishopMoves (s occ : Nat) : Nat := bishopAttack s occ

/-- `magic::queen_moves`. -/
def queenMoves (s occ : Nat) : Nat := rookMoves s occ ||| bishopMoves s occ

/-! ## between / line tables (init.rs `init_between_and_board_lines`) -/

/-- The BETWEEN_SQUARES entry for an ordered pair (0 on the diagonal of the
table, which the init loop skips). -/
def betweenFn (si sj : Nat) : Nat :=
  if si = sj then 0
  else
    let bRook := rookMoves si (sqBB sj)
    let bBish := bishopMoves si (sqBB sj)
    if bRook &&& sqBB sj ≠ 0 then bRook &&& rookMoves sj (sqBB si)
    else if bBish &&& sqBB sj ≠ 0 then bBish &&& bishopMoves sj (sqBB si)
    else 0

/-- The LINE_BB entry: the detected shared line (if any) ORed with both
endpoint squares; the pair of endpoints is ORed in unconditionally. -/
def lineFn (si sj : Nat) : Nat :=
  if si = sj then 0
  else
    let rookSi := rookMoves si 0
    let bishSi := bishopMoves si 0
    let l := if rookSi &&& sqBB sj ≠ 0 then rookSi &&& rookMoves sj 0
             else if bishSi &&& sqBB sj ≠ 0 then bishSi &&& bishopMoves sj 0
             else 0
    l ||| sqBB si ||| sqBB sj

/-- The 64x64 BETWEEN_SQUARES static. -/
def betweenTable : List (List Nat) :=
  (List.range 64).map (fun i => (List.range 64).map (fun j => betweenFn i j))

/-- The 64x64 LINE_BB static. -/
def lineTable : List (List Nat) :=
  (List.range 64).map (fun i => (List.range 64).map (fun j => lineFn i j))

/-- `init::between::<INCLUDE_ENDPOINT>` (bounds are claim C10). -/
def between (inc : Bool) (s1 s2 : Nat) : Nat :=
  if s1 < 64 ∧ s2 < 64 then
    (if inc then betweenFn s1 s2 ||| sqBB s2 else betweenFn s1 s2)
  else 0

/-- `init::line`. -/
def lineBB (s1 s2 : Nat) : Nat :=
  if s1 < 64 ∧ s2 < 64 then lineFn s1 s2 else 0

/-! ## Moves (chessmove.rs)

A move is the packed u32: bits 0-5 origin, 6-11 destination, 12-13 kind,
14-16 promotion kind. -/

def NORMAL : Nat := 0
def ENPASSANT : Nat := 1
def PROMOTION : Nat := 2
def CASTLE : Nat := 3

/-- `Move::NULL`. -/
def mvNULL : Nat := 0

/-- `Move::from`. -/
def mvFrom (m : Nat) : Nat := m &&& 0x3f

/-- `Move::to`. -/
def mvTo (m : Nat) : Nat := (m >>> 6) &&& 0x3f

/-- `Move::kind`. -/
def mvKind (m : Nat) : Nat := (m >>> 12) &&& 3

/-- `Move::promo` (a plain `as u8` truncation in the source). -/
def mvPromo (m : Nat) : Nat := (m >>> 14) % 256

/-- `Move::new`. -/
def mvNew (f t : Nat) : Nat := f ||| (t <<< 6)

/-- `Move::add_type`. -/
def addType (m ty : Nat) : Nat := m ||| (ty <<< 12)

/-- `Move::add_promo`. -/
def addPromo (m ty : Nat) : Nat := addType m PROMOTION ||| (ty <<< 14)

/-- `Move::is_ok`. -/
def mvIsOk (m : Nat) : Bool := mvFrom m ≠ mvTo m

/-! ## Position and State (position.rs)

The `prev: Option<Rc<State>>` chain is flattened: a `State` is its own
per-ply record (`StateCore`) plus the list of previous records, most
recent first; `do_move` pushes, `undo_move` pops, exactly the Rc stack. -/

structure StateCore where
  checkSquares : List Nat
  castle : Nat
  ep : Nat
  rule50 : Int
  checkers : Nat
  blockers : List Nat
  pinners : List Nat
  captured : Nat
deriving DecidableEq, Repr

/-- `State::default()`. -/
def stateDefault : StateCore :=
  { checkSquares := [0, 0, 0, 0, 0, 0], castle := 0, ep := sqNULL, rule50 := 0,
    checkers := 0, blockers := [0, 0], pinners := [0, 0], captured := pNULL }

structure State where
  cur : StateCore
  prev : List StateCore
deriving DecidableEq, Repr

structure Position where
  board : List Nat
  pieces : List Nat
  colors : List Nat
  ply : Int
  toMove : Color
  state : State
deriving DecidableEq, Repr

/-- `Position::default()`. -/
def positionDefault : Position :=
  { board := List.replicate 64 pNULL, pieces := List.replicate 6 0,
    colors := [0, 0], ply := 0, toMove := .white,
    state := { cur := stateDefault, prev := [] } }

/-- `Position::color`. -/
def colorBB (p : Position) (c : Color) : Nat := p.colors.getD c.toNat 0

/-- `Position::piece`. -/
def pieceBB (p : Position) (ty : Nat) : Nat := p.pieces.getD ty 0

/-- `Position::spec`. -/
def specBB (p : Position) (ty : Nat) (c : Color) : Nat := colorBB p c &&& pieceBB p ty

/-- `Position::piece_2t`. -/
def piece2t (p : Position) (t1 t2 : Nat) : Nat := pieceBB p t1 ||| pieceBB p t2

/-- `Position::spec_2t`. -/
def spec2t (p : Position) (t1 t2 : Nat) (c : Color) : Nat := piece2t p t1 t2 &&& colorBB p c

/-- `Position::all`. -/
def allBB (p : Position) : Nat := colorBB p .white ||| colorBB p .black

/-- `Position::king`. -/
def kingSq (p : Position) (c : Color) : Nat := getSquare (specBB p KING c)

/-- `Position::piece_on` (out of range panics in Rust; the NULL default here
is never observed under the theorems' bounds hypotheses). -/
def pieceOn (p : Position) (s : Nat) : Nat := p.board.getD s pNULL

/-- `Position::is_empty_square`. -/
def isEmptySq (p : Position) (s : Nat) : Bool := pieceOn p s = pNULL

/-- `State::check_squares`. -/
def checkSquaresOf (st : StateCore) (ty : Nat) : Nat := st.checkSquares.getD ty 0

/-- `State::blockers`. -/
def blockersOf (st : StateCore) (c : Color) : Nat := st.blockers.getD c.toNat 0

/-- `State::pinners`. -/
def pinnersOf (st : StateCore) (c : Color) : Nat := st.pinners.getD c.toNat 0

/-- `Castle::castle_for`: (king side, queen side). -/
def castleFor (castle : Nat) (c : Color) : Bool × Bool :=
  let king := match c with | .white => 1 | .black => 4
  let queen := match c with | .white => 2 | .black => 8
  (castle &&& king > 0, castle &&& queen > 0)

/-- `Position::attacks_to_occ`. -/
def attacksToOcc (p : Position) (square occ : Nat) : Nat :=
  let pawns := (pawnAttack square .white &&& specBB p PAWN .black) |||
               (pawnAttack square .black &&& specBB p PAWN .white)
  let knights := knightAttack square &&& pieceBB p KNIGHT
  let kings := kingAttack square &&& pieceBB p KING
  let bish := bishopMoves square occ &&& piece2t p BISHOP QUEEN
  let rook := rookMoves square occ &&& piece2t p ROOK QUEEN
  pawns ||| knights ||| kings ||| bish ||| rook

/-- `Position::attacks_to`. -/
def attacksTo (p : Position) (square : Nat) : Nat := attacksToOcc p square (allBB p)

/-- `Position::slider_blockers`, returning (blockers, pinners); the sniper
loop is a fold over the sniper squares in ascending order. -/
def sliderBlockers (p : Position) (sliders square : Nat) : Nat × Nat :=
  let snipers := ((rookMoves square 0 &&& piece2t p ROOK QUEEN) |||
                  (bishopMoves square 0 &&& piece2t p BISHOP QUEEN)) &&& sliders
  let occ := allBB p ^^^ snipers
  (squaresOf snipers).foldl (fun acc sniper =>
    let b := between false square sniper &&& occ
    if b ≠ 0 && ¬ moreThanOne b then
      (acc.1 ||| b,
       if b &&& colorBB p (pieceColor (pieceOn p square)) ≠ 0 then acc.2 ||| sqBB sniper
       else acc.2)
    else acc) (0, 0)

/-- `Position::add_piece`. -/
def addPiece (p : Position) (square piece : Nat) : Position :=
  { p with
    board := p.board.set square piece
    colors := p.colors.set (pieceColor piece).toNat (colorBB p (pieceColor piece) ||| sqBB square)
    pieces := p.pieces.set (pieceKind piece) (pieceBB p (pieceKind piece) ||| sqBB square) }

/-- `Position::clear_square`. -/
def clearSquare (p : Position) (square : Nat) : Nat × Position :=
  let pc := pieceOn p square
  if pieceIsOk pc then
    (pc, { p with
      board := p.board.set square pNULL
      colors := p.colors.set (pieceColor pc).toNat (colorBB p (pieceColor pc) ^^^ sqBB square)
      pieces := p.pieces.set (pieceKind pc) (pieceBB p (pieceKind pc) ^^^ sqBB square) })
  else (pc, p)

/-- `Position::is_legal`. -/
def isLegal (p : Position) (m : Nat) : Bool :=
  let us := p.toMove
  let k := kingSq p us
  let fromSq := mvFrom m
  let toSq := mvTo m
  let ty := mvKind m
  if ty = ENPASSANT then
    let pawnCapSq := getSquare (pawnPush us.opp (sqBB toSq))
    let occ := allBB p ^^^ sqBB fromSq ^^^ sqBB toSq ^^^ sqBB pawnCapSq
    (rookMoves k occ &&& spec2t p QUEEN ROOK us.opp) = 0 &&
    (bishopMoves k occ &&& spec2t p QUEEN BISHOP us.opp) = 0
  else if ty = CASTLE then
    (squaresOf (between true k toSq)).all (fun s => (attacksTo p s &&& colorBB p us.opp) = 0)
  else if fromSq = k then
    (attacksToOcc p toSq (allBB p ^^^ sqBB fromSq) &&& colorBB p us.opp) = 0
  else
    (blockersOf p.state.cur us &&& sqBB fromSq) = 0 || inLine2 fromSq toSq k

/-- `Position::compute_state`; the `check_squares[5]` assignment reads the
`blockers` entry that the previous statements just zeroed, so it is
constantly empty, exactly as in the source. -/
def computeState (p : Position) : Position :=
  let us := p.toMove
  let king := kingSq p us
  let checkers := attacksTo p king &&& colorBB p us.opp
  let cs0 := pawnAttack king us
  let cs1 := knightAttack king
  let cs2 := bishopMoves king 0
  let cs3 := rookMoves king 0
  let cs4 := cs2 ||| cs3
  let cs5 := if ((0 : Nat) &&& sqBB (kingSq p us.opp)) ≠ 0 then kingAttack (kingSq p us.opp)
             else 0
  let wPair := sliderBlockers p (colorBB p .black) (kingSq p .white)
  let bPair := sliderBlockers p (colorBB p .white) (kingSq p .black)
  { p with state := { p.state with cur := { p.state.cur with
      checkers := checkers,
      checkSquares := [cs0, cs1, cs2, cs3, cs4, cs5],
      blockers := [wPair.1, bPair.1],
      pinners := [bPair.2, wPair.2] } } }

/-- The board/bitboard shuffle of `Position::do_move`: clear the origin,
clear the destination, drop the moved (or promoted) piece and apply the
en-passant or castle fixup; returns the `state.captured` value and the
shuffled position. -/
def dmShuffle (p : Position) (m : Nat) : Nat × Position :=
  let fromSq := mvFrom m
  let toSq := mvTo m
  let ty := mvKind m
  let us := p.toMove
  let mp1 := clearSquare p fromSq
  let moved := mp1.1
  let cp2 := clearSquare mp1.2 toSq
  let cap := cp2.1
  let p3 := if ty ≠ PROMOTION then addPiece cp2.2 toSq moved
            else addPiece cp2.2 toSq (pieceNew (mvPromo m) us)
  if ty = ENPASSANT then
    let epCapSq := getSquare (pawnPush us.opp (sqBB toSq))
    clearSquare p3 epCapSq
  else if ty = CASTLE then
    let rookFile := if fileOf toSq = 2 then 0 else 7
    let rookDestFile := if fileOf toSq = 2 then 3 else 5
    let rookSquare := sqCreate rookFile (rankOf fromSq)
    let rp := clearSquare p3 rookSquare
    (cap, addPiece rp.2 (sqCreate rookDestFile (rankOf fromSq)) rp.1)
  else (cap, p3)

/-- `Position::do_move` (functional: returns the updated position). -/
def doMove (p : Position) (m : Nat) : Position :=
  let fromSq := mvFrom m
  let toSq := mvTo m
  let us := p.toMove
  let moved := (clearSquare p fromSq).1
  let cap := (clearSquare (clearSquare p fromSq).2 toSq).1
  let stRule50 := p.state.cur.rule50 + 1
  let step4 := dmShuffle p m
  let stCaptured := step4.1
  let p4 := step4.2
  let stCastle := p.state.cur.castle
  let stCastle := if pieceKind moved = KING
                  then stCastle &&& ((3 <<< (2 * us.toNat)) ^^^ 255) else stCastle
  let stCastle :=
    if pieceKind moved = ROOK then
      let rel := sqRelative fromSq us
      if rel = 0 && (castleFor stCastle us).2 then stCastle ^^^ (2 <<< (2 * us.toNat))
      else if rel = 7 && (castleFor stCastle us).1 then stCastle ^^^ (1 <<< (2 * us.toNat))
      else stCastle
    else stCastle
  let stCastle :=
    if pieceIsOk cap && pieceKind cap = ROOK then
      let bit := if sqRelative toSq us = 63 then 1 <<< (2 * us.opp.toNat)
                 else if sqRelative toSq us = 56 then 2 <<< (2 * us.opp.toNat)
                 else 0
      stCastle &&& (bit ^^^ 255)
    else stCastle
  let stEp :=
    if pieceKind moved = PAWN && sqDist fromSq toSq = 2 then
      let possibleEp := getSquare (pawnPush us (sqBB fromSq))
      if pawnAttack possibleEp us &&& specBB p4 PAWN us.opp ≠ 0 then possibleEp else sqNULL
    else sqNULL
  let stRule50 := if pieceKind moved = PAWN || pieceIsOk cap then 0 else stRule50
  let newCore : StateCore := { p.state.cur with
      castle := stCastle, ep := stEp, rule50 := stRule50, captured := stCaptured }
  let p5 : Position := { p4 with
      ply := p.ply + 1,
      toMove := us.opp,
      state := { cur := newCore, prev := p.state.cur :: p.state.prev } }
  computeState p5

/-- The body of `Position::undo_move` once the popped `State` (the head of
the `prev` chain) is in hand. -/
def undoCore (p : Position) (m : Nat) (stOld : StateCore) (rest : List StateCore) : Position :=
  let fromSq := mvFrom m
  let toSq := mvTo m
  let ty := mvKind m
  let cap := p.state.cur.captured
  let p0 : Position := { p with state := { cur := stOld, prev := rest },
                                toMove := p.toMove.opp }
  let us := p0.toMove
  let mp := clearSquare p0 toSq
  let moved := if ty = PROMOTION then pieceNew PAWN us else mp.1
  let p1 := addPiece mp.2 fromSq moved
  let p2 :=
    if pieceIsOk cap then
      let s := if ty = ENPASSANT then getSquare (pawnPush us.opp (sqBB toSq)) else toSq
      addPiece p1 s cap
    else p1
  let p3 :=
    if ty = CASTLE then
      let pair := if fileOf toSq = 6 then (5, 7)
                  else (3, 0)
      let br := rankRelative 0 us
      let rp := clearSquare p2 (sqCreate pair.1 br)
      addPiece rp.2 (sqCreate pair.2 br) rp.1
    else p2
  { p3 with ply := p.ply - 1 }

/-- `Position::undo_move` (on an empty undo stack the source panics; here
the position is returned unchanged, unreachable under the theorems'
hypotheses). -/
def undoMove (p : Position) (m : Nat) : Position :=
  match p.state.prev with
  | [] => p
  | stOld :: rest => undoCore p m stOld rest

/-! ## Move generation (movegen.rs) -/

inductive GenType where
  | captures
  | evasions
  | nonEvasions
  | quiet
  | quietChecks
deriving DecidableEq, Repr

/-- `generate_pawn_moves`; moves are listed in push order. -/
def generatePawnMoves (p : Position) (us : Color) (gt : GenType) (target : Nat) : List Nat :=
  let r3bb := rankBB (rankRelative 2 us)
  let r7bb := rankBB (rankRelative 6 us)
  let pawns := specBB p PAWN us
  let on7 := pawns &&& r7bb
  let other := pawns ^^^ on7
  let enemies := if gt = .evasions then p.state.cur.checkers else colorBB p us.opp
  let empty := bnot (allBB p)
  let fw := pawnPush us
  let back := pawnPush us.opp
  let part1 : List Nat :=
    if gt ≠ .captures then
      let b1 := fw other &&& empty
      let b2 := fw (b1 &&& r3bb) &&& empty
      let b1 := if gt = .evasions then b1 &&& target else b1
      let b2 := if gt = .evasions then b2 &&& target else b2
      let pair :=
        if gt = .quietChecks then
          let k := kingSq p us.opp
          let dc := andNot (blockersOf p.state.cur us.opp) (fileBB (fileOf k))
          (b1 &&& (pawnAttack k us.opp ||| fw dc),
           b2 &&& (pawnAttack k us.opp ||| fw (fw dc)))
        else (b1, b2)
      (boardsOf pair.1).map (fun s => mvNew (getSquare (back s)) (getSquare s)) ++
      (boardsOf pair.2).map (fun s => mvNew (getSquare (back (back s))) (getSquare s))
    else []
  let part2 : List Nat :=
    if on7 ≠ 0 then
      let b1 := andNot (shl (fw on7) 1) (fileBB 0) &&& enemies
      let b2 := andNot (shr (fw on7) 1) (fileBB 7) &&& enemies
      let b3 := fw on7 &&& empty
      let b3 := if gt = .evasions then b3 &&& target else b3
      let mk := fun (f t : Nat) =>
        [addPromo (mvNew f t) KNIGHT, addPromo (mvNew f t) BISHOP,
         addPromo (mvNew f t) ROOK, addPromo (mvNew f t) QUEEN]
      ((boardsOf b1).map (fun s => mk (getSquare (shr (back s) 1)) (getSquare s))).flatten ++
      ((boardsOf b2).map (fun s => mk (getSquare (shl (back s) 1)) (getSquare s))).flatten ++
      ((boardsOf b3).map (fun s => mk (getSquare (back s)) (getSquare s))).flatten
    else []
  let part3 : List Nat :=
    if gt = .captures || gt = .evasions || gt = .nonEvasions then
      let b1 := andNot (shl (fw other) 1) (fileBB 0) &&& enemies
      let b2 := andNot (shr (fw other) 1) (fileBB 7) &&& enemies
      let caps :=
        (boardsOf b1).map (fun s => mvNew (getSquare (shr (back s) 1)) (getSquare s)) ++
        (boardsOf b2).map (fun s => mvNew (getSquare (shl (back s) 1)) (getSquare s))
      let eps :=
        if sqIsOk p.state.cur.ep then
          let ep := p.state.cur.ep
          if gt = .evasions && (target &&& fw (sqBB ep)) ≠ 0 then []
          else (squaresOf (other &&& pawnAttack ep us.opp)).map
                 (fun s => addType (mvNew s ep) ENPASSANT)
        else []
      caps ++ eps
    else []
  part1 ++ part2 ++ part3

/-- `gen_attacks` (Pawn/King panic in the source; 0 here, unreachable). -/
def genAttacks (square pt occ friendly : Nat) : Nat :=
  if pt = KNIGHT then andNot (knightAttack square) friendly
  else if pt = BISHOP then andNot (bishopMoves square occ) friendly
  else if pt = ROOK then andNot (rookMoves square occ) friendly
  else if pt = QUEEN then andNot (bishopMoves square occ ||| rookMoves square occ) friendly
  else 0

/-- `generate_piece_moves`. -/
def generatePieceMoves (p : Position) (us : Color) (target : Nat) (checks : Bool) : List Nat :=
  [KNIGHT, BISHOP, ROOK, QUEEN].foldl (fun acc pt =>
    (squaresOf (specBB p pt us)).foldl (fun acc2 s =>
      let b := genAttacks s pt (allBB p) (colorBB p us) &&& target
      let b := if checks && (pt = QUEEN || (blockersOf p.state.cur us.opp &&& sqBB s) = 0)
               then b &&& checkSquaresOf p.state.cur pt else b
      acc2 ++ (squaresOf b).map (fun d => mvNew s d)) acc) []

/-- `generate_for`. -/
def generateFor (p : Position) (us : Color) (gt : GenType) : List Nat :=
  let checks := gt = GenType.quietChecks
  let king := kingSq p us
  let mainCond := gt ≠ GenType.evasions || ¬ moreThanOne p.state.cur.checkers
  let target :=
    if mainCond then
      if gt = .evasions then between true king (getSquare p.state.cur.checkers)
      else if gt = .nonEvasions then bnot (colorBB p us)
      else if gt = .captures then colorBB p us.opp
      else bnot (allBB p)
    else 0
  let pawnPiece :=
    if mainCond then generatePawnMoves p us gt target ++ generatePieceMoves p us target checks
    else []
  let kingPart :=
    if ¬ checks || (blockersOf p.state.cur us.opp &&& sqBB king) ≠ 0 then
      let mask := if gt = .evasions then bnot (colorBB p us) else target
      let b := kingAttack king &&& mask
      let b := if checks then b &&& bnot (queenMoves (kingSq p us.opp) 0) else b
      let kingMoves := (squaresOf b).map (fun s => mvNew king s)
      let castles :=
        if gt = GenType.quiet || gt = GenType.nonEvasions then
          let pair := castleFor p.state.cur.castle us
          let c1 :=
            if pair.1 then
              let upToRook := sqRelative 6 us
              if allBB p &&& between true king upToRook = 0 then
                [addType (mvNew king (sqRelative 6 us)) CASTLE]
              else []
            else []
          let c2 :=
            if pair.2 then
              let upToRook := sqRelative 1 us
              if allBB p &&& between true king upToRook = 0 then
                [addType (mvNew king (sqRelative 2 us)) CASTLE]
              else []
            else []
          c1 ++ c2
        else []
      kingMoves ++ castles
    else []
  pawnPiece ++ kingPart

/-- The swap-remove filter loop of `generate_legal`: element `i` is either
kept (advance) or overwritten by the last element, which is then dropped.
Fuel bounds the number of iterations (at most the initial length). -/
def legalFilterLoop (p : Position) (pinned k : Nat) : Nat → Nat → List Nat → List Nat
  | 0, _, l => l
  | fuel + 1, i, l =>
    if i < l.length then
      let m := l.getD i 0
      if ((pinned &&& sqBB (mvFrom m)) ≠ 0 || mvFrom m = k || mvKind m = ENPASSANT)
         && ¬ isLegal p m then
        legalFilterLoop p pinned k fuel i ((l.set i (l.getD (l.length - 1) 0)).dropLast)
      else legalFilterLoop p pinned k fuel (i + 1) l
    else l

/-- `generate_legal`. -/
def generateLegal (p : Position) : List Nat :=
  let us := p.toMove
  let gt := if p.state.cur.checkers = 0 then GenType.nonEvasions else GenType.evasions
  let l := generateFor p us gt
  let pinned := blockersOf p.state.cur us &&& colorBB p us
  legalFilterLoop p pinned (kingSq p us) (l.length + 1) 0 l

/-- `Position::perft::<Root>`; the imperative do/undo pair is the functional
recursion on `do_move`'s result (depth 0 asserts in the source and is
unreachable from a root call with positive depth). -/
def perft (root : Bool) : Nat → Position → Nat
  | 0, _ => 0
  | d + 1, p =>
    (generateLegal p).foldl (fun nodes m =>
      if root && d + 1 = 1 then nodes + 1
      else
        let child := doMove p m
        nodes + (if d + 1 = 2 then (generateLegal child).length else perft false d child)) 0

/-! ## FEN input and output (position.rs `FromStr` and `Position::fen`)

The source parser walks a character iterator; it is embedded as structural
recursion over the character list, threading the running square index `s`
(a wrapping u8 in Rust; all subtractions here stay in range on the inputs
covered by the theorems).  `Err(..)` becomes `none`. -/

/-- `PType::try_from(char)`. -/
def ptypeFromChar (c : Char) : Option Nat :=
  if c = 'p' then some PAWN
  else if c = 'n' then some KNIGHT
  else if c = 'b' then some BISHOP
  else if c = 'r' then some ROOK
  else if c = 'q' then some QUEEN
  else if c = 'k' then some KING
  else none

/-- `Piece::try_from(char)`. -/
def pieceFromChar (c : Char) : Option Nat :=
  match ptypeFromChar c.toLower with
  | some ty => some (pieceNew ty (if c.isUpper then .white else .black))
  | none => none

/-- `File::try_from(char)`. -/
def fileFromChar (c : Char) : Option Nat :=
  if 'a' ≤ c ∧ c ≤ 'h' then some (c.toNat - 97) else none

/-- `Rank::try_from(char)`. -/
def rankFromChar (c : Char) : Option Nat :=
  if '1' ≤ c ∧ c ≤ '8' then some (c.toNat - 49) else none

/-- Write a mask into the castle field (the parser's `castle.0 |= bit`). -/
def setCastleBits (p : Position) (b : Nat) : Position :=
  { p with state := { p.state with cur :=
      { p.state.cur with castle := p.state.cur.castle ||| b } } }

/-- Write the en-passant field. -/
def setEp (p : Position) (e : Nat) : Position :=
  { p with state := { p.state with cur := { p.state.cur with ep := e } } }

/-- Field 1 loop of `FromStr`: digits advance the square index, a slash
steps one rank down, piece letters are placed; stops after a space (an
exhausted iterator simply ends the loop, and the next field then fails). -/
def parsePlacement : List Char → Nat → Position → Option (Position × List Char)
  | [], _, p => some (p, [])
  | c :: rest, s, p =>
    if c = ' ' then some (p, rest)
    else if c.isDigit then parsePlacement rest (s + (c.toNat - 48)) p
    else if c = '/' then parsePlacement rest (s - 16) p
    else
      match pieceFromChar c with
      | some pc => parsePlacement rest (s + 1) (addPiece p s pc)
      | none => none

/-- Field 3 loop of `FromStr`. -/
def parseCastleField : List Char → Position → Option (Position × List Char)
  | [], p => some (p, [])
  | c :: rest, p =>
    if c = ' ' then some (p, rest)
    else if c = '-' then
      match rest with
      | c2 :: rest2 => if c2 = ' ' then some (p, rest2) else none
      | [] => none
    else if c = 'K' then parseCastleField rest (setCastleBits p 1)
    else if c = 'Q' then parseCastleField rest (setCastleBits p 2)
    else if c = 'k' then parseCastleField rest (setCastleBits p 4)
    else if c = 'q' then parseCastleField rest (setCastleBits p 8)
    else none

/-- Field 4 of `FromStr` (the en-passant target; trailing half/full-move
counters are never read, exactly as in the source). -/
def parseEpField : List Char → Position → Option Position
  | [], _ => none
  | c :: rest, p =>
    if c = '-' then some (setEp p 64)
    else
      match fileFromChar c with
      | none => none
      | some f =>
        match rest with
        | [] => none
        | cn :: _ =>
          match rankFromChar cn with
          | none => none
          | some r => some (setEp p (sqCreate f r))

/-- `Position::from_str`. -/
def parseFen (chars : List Char) : Option Position :=
  match parsePlacement chars 56 positionDefault with
  | none => none
  | some pr =>
    match pr.2 with
    | [] => none
    | c :: rest2 =>
      if c = 'w' || c = 'b' then
        let p1 : Position :=
          { pr.1 with toMove := if c = 'w' then Color.white else Color.black }
        match rest2 with
        | c2 :: rest3 =>
          if c2 = ' ' then
            match parseCastleField rest3 p1 with
            | none => none
            | some pr2 =>
              match parseEpField pr2.2 pr2.1 with
              | none => none
              | some p3 => some (computeState p3)
          else none
        | [] => none
      else none

/-- `From<Piece> for char` (space for non-ok pieces). -/
def pieceChar (pc : Nat) : Char :=
  if ¬ pieceIsOk pc then ' '
  else
    let k := pieceKind pc
    let base := if k = PAWN then 'p' else if k = KNIGHT then 'n' else if k = BISHOP then 'b'
                else if k = ROOK then 'r' else if k = QUEEN then 'q' else 'k'
    if pieceColor pc = .white then base.toUpper else base

/-- The empty-run digit of the FEN writer: `(b'0' + empty) as char`. -/
def digitChar (n : Nat) : Char := Char.ofNat (48 + n)

/-- Modelled from the spec: `impl From<File> for char` and
`impl From<Rank> for char` (used by `Square`'s Display) are not in src/;
the spec's move text and FEN sections fix them as the letters a-h and the
digits 1-8. -/
def squareChars (s : Nat) : List Char :=
  [Char.ofNat (97 + fileOf s), Char.ofNat (49 + rankOf s)]

/-- One rank of `Position::fen`: the inner file loop with its empty-run
counter, plus the flush after the loop. -/
def fenRankChars (p : Position) (i : Nat) : List Char :=
  let res := (List.range 8).foldl (fun (acc : List Char × Nat) j =>
      let s := (7 - i) * 8 + j
      let pc := pieceOn p s
      if pieceIsOk pc then
        (acc.1 ++ (if acc.2 > 0 then [digitChar acc.2] else []) ++ [pieceChar pc], 0)
      else (acc.1, acc.2 + 1)) ([], 0)
  res.1 ++ (if res.2 > 0 then [digitChar res.2] else [])

/-- `Position::fen`: fields 1-4 (the halfmove/fullmove fields are a FIXME
in the source and are not emitted). -/
def fenOf (p : Position) : List Char :=
  ((List.range 8).map (fun i => fenRankChars p i ++ (if i ≠ 7 then ['/'] else []))).flatten
  ++ [' ', if p.toMove = Color.white then 'w' else 'b', ' ']
  ++ (if p.state.cur.castle = 0 then ['-']
      else (if (castleFor p.state.cur.castle .white).1 then ['K'] else []) ++
           (if (castleFor p.state.cur.castle .white).2 then ['Q'] else []) ++
           (if (castleFor p.state.cur.castle .black).1 then ['k'] else []) ++
           (if (castleFor p.state.cur.castle .black).2 then ['q'] else []))
  ++ [' ']
  ++ (if sqIsOk p.state.cur.ep then squareChars p.state.cur.ep else ['-'])

/-! ## Deterministic generator (prng.rs)

The xorshift-with-multiplicative-finalizer generator the spec mandates for
magic generation.  It exists in the source tree but `init_magics` does not
use it (it draws single values from an entropy-seeded `nanorand::WyRand`
instead), which is what claim C8 is about. -/

/-- `Prng::sample`: xorshift64star step; returns (new state, value). -/
def prngSample (s : Nat) : Nat × Nat :=
  let s := s ^^^ (s >>> 12)
  let s := (s ^^^ (s <<< 25)) % U64
  let s := s ^^^ (s >>> 27)
  (s, (s * 2685821657736338717) % U64)

/-- `Prng::sparse`: AND of three successive samples; returns
(new state, value). -/
def prngSparse (s : Nat) : Nat × Nat :=
  let a := prngSample s
  let b := prngSample a.1
  let c := prngSample b.1
  (c.1, a.2 &&& b.2 &&& c.2)

/-! ## Move ordering (moveorder.rs)

The f64 scores are modelled in exact fixed point: an integer number of
hundredths of the float value.  On the capture path every float the source
computes is an integer in pawn units (so the model is exact), and
comparisons are invariant under the positive scale.  Two pieces of this
module are *not* in src/ and are therefore a spec model or a parameter:

* `PType::valuef` (missing; modelled from the spec's material values
  100..900, which the float variant renders in pawn units as
  `value / 100`; in the fixed-point model `valuef * 100` is therefore
  `value * 100`);
* `Square::weight_map_idx` (missing, and nothing in the spec describes the
  32-entry weight tables' indexing), so the whole quiet-move weight
  `piece_map_wt` is taken as an explicit function parameter `pmw`
  (fixed-point hundredths as well); every theorem quantifies over it. -/

/-- `mvv_lva` in fixed-point hundredths:
`valuef(cap) * 100 - valuef(mover) * 90` scaled by 100 is
`value(cap) * 100 - value(mover) * 90`. -/
def mvvLva (p : Position) (m : Nat) : Int :=
  let cap := if mvKind m = ENPASSANT then PAWN else pieceKind (pieceOn p (mvTo m))
  let mover := pieceKind (pieceOn p (mvFrom m))
  let mover := if mvKind m = PROMOTION then mvPromo m else mover
  ptValue cap * 100 - ptValue mover * 90

/-- `Position::gives_check` (both `in_line2` call sites are the constantly
false function). -/
def givesCheck (p : Position) (m : Nat) : Bool :=
  let pc := pieceOn p (mvFrom m)
  let dest := mvTo m
  let isMovingToCheck := checkSquaresOf p.state.cur (pieceKind pc) &&& sqBB dest ≠ 0
  let blocker := blockersOf p.state.cur p.toMove.opp &&& sqBB (mvFrom m)
  if blocker = 0 then isMovingToCheck
  else
    let k := kingSq p p.toMove.opp
    let discoverer := (squaresOf (pinnersOf p.state.cur p.toMove)).foldl
      (fun acc pinner =>
        if sqIsOk acc then acc
        else if inLine2 pinner (getSquare blocker) k then pinner else acc) sqNULL
    inLine2 discoverer (getSquare blocker) k || isMovingToCheck

/-- The per-move (score, priority-group) of `order_moves`
(fixed-point hundredths; the promotion bonus `valuef(promo) * 100` scales
to `value(promo) * 100`, the check bonus 400.0 to 40000). -/
def orderScore (pmw : Nat → Nat → Color → Int) (p : Position) (m : Nat) : Int × Nat :=
  let toS := mvTo m
  let fromS := mvFrom m
  let moved := pieceOn p fromS
  let cap := pieceOn p toS
  if mvKind m = PROMOTION || pieceIsOk cap || mvKind m = ENPASSANT then
    let capS := if pieceIsOk cap || mvKind m = ENPASSANT then mvvLva p m else 0
    let promS := if mvKind m = PROMOTION then ptValue (mvPromo m) * 100 else 0
    (promS + capS, if capS < 0 then 4 else if capS = 0 then 2 else 1)
  else
    let destWt := pmw toS (pieceKind moved) (pieceColor moved)
    let fromWt := pmw fromS (pieceKind moved) (pieceColor moved)
    let checkWt : Int := if givesCheck p m then 40000 else 0
    (destWt - fromWt + checkWt, 3)

/-- The `sort_by` comparator of `order_moves` as a boolean ≤:
priority group first, then score, both ascending. -/
def orderLe (a b : Nat × Int × Nat) : Bool :=
  if a.2.2 ≠ b.2.2 then a.2.2 < b.2.2 else a.2.1 ≤ b.2.1

/-- Insert before the first element that is not ≤ the inserted one: the
step of a stable insertion sort (equal keys keep their input order). -/
def insertLe {a : Type} (le : a → a → Bool) (x : a) : List a → List a
  | [] => [x]
  | y :: ys => if le x y then x :: y :: ys else y :: insertLe le x ys

/-- Stable sort by a boolean ≤, modelling Rust's stable `sort_by`. -/
def sortByLe {a : Type} (le : a → a → Bool) : List a → List a
  | [] => []
  | x :: xs => insertLe le x (sortByLe le xs)

/-- `order_moves`: scores each move, sorts the scored vector by the stable
comparator above (Rust's `sort_by` is a stable sort), and writes the moves
back in that order (the stored ExtMove scores, all zero, are not touched).
`MoveList::set` is not in src/; writing the i-th move back is the only
behaviour its call site admits. -/
def orderMoves (pmw : Nat → Nat → Color → Int) (p : Position) (moveList : List Nat) :
    List Nat :=
  let mapped := moveList.map (fun m => (m, orderScore pmw p m))
  (sortByLe orderLe mapped).map (fun t => t.1)

/-! ## Evaluation and search (evaluate.rs)

The f64 score domain is modelled as `Score`: minus infinity, a finite
fixed-point value (hundredths, exact for every value these paths produce),
or plus infinity (`f64::NEG_INFINITY` / finite values / `f64::INFINITY`;
no NaN can arise in the operations used).  Three helpers
called here are not in src/ and are modelled from the spec:
`Color::persp` (the spec fixes scores to be from the side to move's
perspective, so White is the identity and Black negates),
`Position::material` (the spec's material balance summed with the float
values), and `Position::in_check` (nonempty checkers). -/

inductive Score where
  | negInf
  | fin (v : Int)
  | posInf
deriving DecidableEq, Repr

/-- f64 negation on the score domain. -/
def Score.neg : Score → Score
  | .negInf => .posInf
  | .posInf => .negInf
  | .fin v => .fin (-v)

/-- f64 `<=` on the score domain (total; no NaN). -/
def Score.ble : Score → Score → Bool
  | .negInf, _ => true
  | _, .posInf => true
  | .fin a, .fin b => a ≤ b
  | .posInf, .fin _ => false
  | .posInf, .negInf => false
  | .fin _, .negInf => false

/-- f64 `>=`. -/
def Score.bge (a b : Score) : Bool := Score.ble b a

/-- f64 `>`. -/
def Score.bgt (a b : Score) : Bool := ¬ Score.ble a b

/-- Modelled from the spec: `Color::persp` is not in src/; the spec fixes
the sign convention (scores from the side to move's perspective), so White
is the identity and Black negates. -/
def persp (c : Color) (s : Score) : Score :=
  match c with
  | .white => s
  | .black => s.neg

/-- Modelled from the spec: `Position::material` is not in src/; the
spec's material balance summed with the float piece values (in the
fixed-point model `valuef * 100`, that is the spec's `value`). -/
def material (p : Position) (c : Color) : Int :=
  ((squaresOf (colorBB p c)).map (fun s => ptValue (pieceKind (pieceOn p s)))).sum

/-- Modelled from the spec: `Position::in_check` is not in src/; the side
to move is in check iff the checkers bitboard is nonempty. -/
def inCheck (p : Position) : Bool := p.state.cur.checkers ≠ 0

/-- `material_balance`. -/
def materialBalance (p : Position) : Int := material p .white - material p .black

/-- `static_evaluate`: legal moves exist -> material balance (White's
perspective); otherwise -inf in check (checkmate) and 0.0 for stalemate. -/
def staticEvaluate (p : Position) : Score :=
  if (generateLegal p).length > 0 then .fin (materialBalance p)
  else if inCheck p then .negInf
  else .fin 0

/-- `quiescence`, on fuel: the source recursion terminates because each
recursive step captures a piece; any fuel at least 32 plus one is enough,
and the search entry points below supply a constant 64. -/
def quiescence : Nat → Position → Score → Score → Score
  | 0, _, alpha, _ => alpha
  | fuel + 1, p, alpha, beta =>
    let standPat := persp p.toMove (staticEvaluate p)
    if standPat.bge beta then beta
    else
      let alpha := if standPat.bgt alpha then standPat else alpha
      let gt := if p.state.cur.checkers ≠ 0 then GenType.evasions else GenType.captures
      let res := (generateFor p p.toMove gt).foldl (fun acc m =>
        match acc with
        | Sum.inl b => Sum.inl b
        | Sum.inr a =>
          if ¬ isLegal p m then Sum.inr a
          else
            let e := (quiescence fuel (doMove p m) beta.neg a.neg).neg
            if e.bge beta then Sum.inl beta
            else if e.bgt a then Sum.inr e else Sum.inr a) (Sum.inr alpha)
      match res with
      | Sum.inl b => b
      | Sum.inr a => a

/-- `alpha_beta_internal` (functional: the do/undo pair is recursion on
`do_move`'s result; the root-only best-move out-parameter and diagnostics
counters do not affect the returned score and are omitted). -/
def alphaBetaInternal (pmw : Nat → Nat → Color → Int) :
    Nat → Position → Score → Score → Score
  | 0, p, alpha, beta =>
    let moveList := generateLegal p
    if moveList.length = 0 then persp p.toMove (staticEvaluate p)
    else quiescence 64 p alpha beta
  | d + 1, p, alpha, beta =>
    let moveList := generateLegal p
    if moveList.length = 0 then persp p.toMove (staticEvaluate p)
    else
      let ordered := orderMoves pmw p moveList
      let res := ordered.foldl (fun acc m =>
        match acc with
        | Sum.inl b => Sum.inl b
        | Sum.inr a =>
          let se := (alphaBetaInternal pmw d (doMove p m) beta.neg a.neg).neg
          if se.bge beta then Sum.inl beta
          else if se.bgt a then Sum.inr se else Sum.inr a) (Sum.inr alpha)
      match res with
      | Sum.inl b => b
      | Sum.inr a => a

/-- `alpha_beta` (non-parallel branch): initial bounds are the
perspective-adjusted infinity sentinels. -/
def alphaBeta (pmw : Nat → Nat → Color → Int) (p : Position) (depth : Nat) : Score :=
  alphaBetaInternal pmw depth p (persp p.toMove .negInf) (persp p.toMove .posInf)

/-! ## Spec-side comparison definitions

These definitions follow the words of the claims being checked, not the
source; each is used only to compare the source's behaviour against the
claim text. -/

/-- One ray of the claim's slow enumeration for C3: step by a direction,
collect every square walked, stop after the first occupied square or at
the board edge. -/
def specRayGo (occ : Nat) (df dr : Int) : Nat → Int → Int → Nat
  | 0, _, _ => 0
  | fuel + 1, f, r =>
    let f2 := f + df
    let r2 := r + dr
    if 0 ≤ f2 ∧ f2 < 8 ∧ 0 ≤ r2 ∧ r2 < 8 then
      let sq := (f2 + 8 * r2).toNat
      sqBB sq ||| (if occ &&& sqBB sq ≠ 0 then 0 else specRayGo occ df dr fuel f2 r2)
    else 0

/-- Claim C3's comparator: the rook ray-cast attack set, rays in the four
rook directions stopping at the first blocker (edge squares included). -/
def specRookRayCast (s occ : Nat) : Nat :=
  specRayGo occ 1 0 8 (fileOf s) (rankOf s) ||| specRayGo occ (-1) 0 8 (fileOf s) (rankOf s) |||
  specRayGo occ 0 1 8 (fileOf s) (rankOf s) ||| specRayGo occ 0 (-1) 8 (fileOf s) (rankOf s)

/-- Claim C3's comparator for bishops. -/
def specBishopRayCast (s occ : Nat) : Nat :=
  specRayGo occ 1 1 8 (fileOf s) (rankOf s) ||| specRayGo occ (-1) 1 8 (fileOf s) (rankOf s) |||
  specRayGo occ 1 (-1) 8 (fileOf s) (rankOf s) ||| specRayGo occ (-1) (-1) 8 (fileOf s) (rankOf s)

/-- The claims' notion of two squares sharing a rank, file, or diagonal. -/
def specColinear (a b : Nat) : Bool :=
  fileOf a = fileOf b || rankOf a = rankOf b ||
  fileOf a + rankOf b = fileOf b + rankOf a || fileOf a + rankOf a = fileOf b + rankOf b

/-- Claim C4's condition that origin, destination and king are colinear:
all three on one shared rank, file, or diagonal. -/
def specColinear3 (a b c : Nat) : Bool :=
  if fileOf a = fileOf b then fileOf c = fileOf a
  else if rankOf a = rankOf b then rankOf c = rankOf a
  else if fileOf a + rankOf b = fileOf b + rankOf a then
    fileOf c + rankOf a = fileOf a + rankOf c
  else if fileOf a + rankOf a = fileOf b + rankOf b then
    fileOf c + rankOf c = fileOf a + rankOf a
  else false

/-- Claim C5's full rank/file/diagonal bitboard through two distinct
colinear squares (both endpoints included). -/
def specLineBB (s1 s2 : Nat) : Nat :=
  let mem := fun t =>
    if fileOf s1 = fileOf s2 then fileOf t = fileOf s1
    else if rankOf s1 = rankOf s2 then rankOf t = rankOf s1
    else if fileOf s1 + rankOf s2 = fileOf s2 + rankOf s1 then
      fileOf t + rankOf s1 = fileOf s1 + rankOf t
    else fileOf t + rankOf t = fileOf s1 + rankOf s1
  ((List.range 64).filter (fun t => decide (mem t))).foldl (fun acc t => acc ||| sqBB t) 0

/-- Claim C6's MVV-LVA capture score: ten times the value of the captured
kind minus the value of the moving kind, on the 100..900 value scale. -/
def specCaptureScore (p : Position) (m : Nat) : Int :=
  10 * ptValue (pieceKind (pieceOn p (mvTo m))) - ptValue (pieceKind (pieceOn p (mvFrom m)))

/-! ## Concrete positions used by the theorems -/

/-- The Position-3 perft seed position of the spec and of the tests in
position.rs (P3_FEN). -/
def position3 : Position :=
  (parseFen ("8/2p5/3p4/KP5r/1R3p1k/8/4P1P1/8 w - -".toList)).getD positionDefault

/-- The standard starting position (STARTPOS_FEN of the tests). -/
def startPos : Position :=
  (parseFen ("rnbqkbnr/pppppppp/8/8/8/8/PPPPPPPP/RNBQKBNR w KQkq - 0 1".toList)).getD
    positionDefault

/-- White king e1, white rook e3 pinned by the black queen e5 (black king
h8): the rook's slide e3-e2 stays on the pin ray. -/
def pinRayPos : Position :=
  (parseFen ("7k/8/8/4q3/8/4R3/8/4K3 w - -".toList)).getD positionDefault

/-- The pinned rook's move e3-e2 in `pinRayPos`. -/
def pinRayMove : Nat := mvNew 20 12

/-- White to move and checkmated: Kh1 with own pawns g2/h2, black rook e1
(back-rank mate the engine's move generator does recognise). -/
def whiteMated : Position :=
  (parseFen ("1k6/8/8/8/8/8/6PP/4r2K w - -".toList)).getD positionDefault

/-- The mirrored position with Black to move and checkmated. -/
def blackMated : Position :=
  (parseFen ("4R2k/6pp/8/8/8/8/8/6K1 b - -".toList)).getD positionDefault

/-- Black to move and stalemated (Kh8 against Qf7/Kg6). -/
def blackStalemated : Position :=
  (parseFen ("7k/5Q2/6K1/8/8/8/8/8 b - -".toList)).getD positionDefault

/-- White pawn d4 can capture a black pawn on c5 or the black queen on e5
(kings on h1/h8). -/
def twoCapturesPos : Position :=
  (parseFen ("7k/8/8/2p1q3/3P4/8/8/7K w - -".toList)).getD positionDefault

/-- d4 takes the pawn on c5. -/
def pawnTakesPawn : Nat := mvNew 27 34

/-- d4 takes the queen on e5. -/
def pawnTakesQueen : Nat := mvNew 27 36

/-! ## Preconditions for do/undo (claim C2)

`WF` is the spec's redundancy invariant: the color and kind bitboards are
exactly the per-square predicate images of the board array (and the three
arrays have their declared lengths).  `DoOK` is the contract of `do_move`:
the conjunction of its `debug_assert!` preconditions, together with the
square-validity facts every move generated for a well-formed position
satisfies (the spec's section 7 declares these assumed in release). -/

/-- Bits of one color bitboard match the board array. -/
def WFColor (p : Position) (c : Color) : Prop :=
  ∀ s, s < 64 →
    ((colorBB p c).testBit s = true ↔
      (pieceIsOk (pieceOn p s) = true ∧ pieceColor (pieceOn p s) = c))

/-- Bits of one kind bitboard match the board array. -/
def WFKind (p : Position) (k : Nat) : Prop :=
  ∀ s, s < 64 →
    ((pieceBB p k).testBit s = true ↔
      (pieceIsOk (pieceOn p s) = true ∧ pieceKind (pieceOn p s) = k))

/-- The redundancy invariant of a Position: declared array lengths, every
board cell a valid piece or NULL, and the color/kind bitboards exactly the
per-square predicate images of the board array. -/
def WF (p : Position) : Prop :=
  p.board.length = 64 ∧ p.pieces.length = 6 ∧ p.colors.length = 2 ∧
  (∀ s, s < 64 → pieceIsOk (pieceOn p s) = true ∨ pieceOn p s = pNULL) ∧
  WFColor p .white ∧ WFColor p .black ∧ ∀ k, k < 6 → WFKind p k

/-- The `do_move` contract for a move of the side to move (see the section
header). -/
def DoOK (p : Position) (m : Nat) : Prop :=
  let fromSq := mvFrom m
  let toSq := mvTo m
  let ty := mvKind m
  let us := p.toMove
  fromSq ≠ toSq ∧ fromSq < 64 ∧ toSq < 64 ∧
  pieceIsOk (pieceOn p fromSq) = true ∧ pieceColor (pieceOn p fromSq) = us ∧
  (pieceIsOk (pieceOn p toSq) = true → pieceColor (pieceOn p toSq) = us.opp) ∧
  (ty = PROMOTION → pieceKind (pieceOn p fromSq) = PAWN ∧
    1 ≤ mvPromo m ∧ mvPromo m ≤ 4) ∧
  (ty = ENPASSANT →
    pieceOn p toSq = pNULL ∧
    pieceKind (pieceOn p fromSq) = PAWN ∧
    (let capSq := getSquare (pawnPush us.opp (sqBB toSq))
     capSq < 64 ∧ capSq ≠ fromSq ∧ capSq ≠ toSq ∧
     pieceOn p capSq = pieceNew PAWN us.opp)) ∧
  (ty = CASTLE →
    pieceOn p toSq = pNULL ∧
    pieceKind (pieceOn p fromSq) = KING ∧
    fromSq = sqRelative 4 us ∧ (fileOf toSq = 2 ∨ fileOf toSq = 6) ∧
    rankOf toSq = rankOf fromSq ∧
    (let rookSq := sqCreate (if fileOf toSq = 2 then 0 else 7) (rankOf fromSq)
     let rookDst := sqCreate (if fileOf toSq = 2 then 3 else 5) (rankOf fromSq)
     pieceOn p rookSq = pieceNew ROOK us ∧ pieceOn p rookDst = pNULL ∧
     rookSq ≠ fromSq ∧ rookSq ≠ toSq ∧ rookDst ≠ fromSq ∧ rookDst ≠ toSq ∧
     rookSq ≠ rookDst))

/-! ## C9 infrastructure: recursive views of the FEN writer's rank loop and
of the parser's placement effect, and the renderable-configuration
predicate. -/

/-- Recursive form of the `Position::fen` rank loop: remaining file count,
current pending empty-run. -/
def emitList (p : Position) (base : Nat) : List Nat → Nat → List Char
  | [], r => if r > 0 then [digitChar r] else []
  | j :: js, r =>
    if pieceIsOk (pieceOn p (base + j))
    then (if r > 0 then [digitChar r] else []) ++
         pieceChar (pieceOn p (base + j)) :: emitList p base js 0
    else emitList p base js (r + 1)

/-- The placement effect of parsing one rendered rank: re-add `p`'s
occupied cells of the rank onto `q`. -/
def placeFiles (p : Position) (base : Nat) : List Nat → Position → Position
  | [], q => q
  | j :: js, q =>
    placeFiles p base js
      (if pieceIsOk (pieceOn p (base + j))
       then addPiece q (base + j) (pieceOn p (base + j)) else q)

/-- A renderable position configuration: 64 board cells each a valid piece
or NULL, a castle field below 16 (the four rendered bits) and an
en-passant square that is on the board or exactly `Square::NULL`. -/
def ValidCfg (p : Position) : Prop :=
  p.board.length = 64 ∧
  (∀ s, s < 64 → pieceIsOk (pieceOn p s) = true ∨ pieceOn p s = pNULL) ∧
  p.state.cur.castle < 16 ∧ p.state.cur.ep ≤ 64

/-! # Theorems -/

/-- C1: the Position-3 seed position refutes the published perft table: the
engine counts 13 legal moves at depth 1 where both the spec's table and the
repository's own test `fen3_depth_1` demand 14 (the edge-stripped slider
tables lose the rook moves b4-b1 and b4-a4 and also miss the h5 rook as a
sniper, so the illegal pinned-pawn push b5-b6 is let through). -/
theorem c1_perft_position3_depth1 :
    perft true 1 position3 = 13 ∧ perft true 1 position3 ≠ 14 := by
  constructor
  · decide
  · decide

/-- C3: at square e4 with the empty blocker subset (a subset of every
relevant-blocker mask), the published lookup differs from the ray-cast
attack set of the claim by exactly the four board-edge ray ends e1, a4,
h4, e8 (rook) and b1, h1, h7, a8 (bishop): the tables store
edge-stripped sets, not the ray-cast sets. -/
theorem c3_tables_are_edge_stripped :
    specRookRayCast 28 0 ^^^ rookMoves 28 0 = sqBB 4 ||| sqBB 24 ||| sqBB 31 ||| sqBB 60 ∧
    specBishopRayCast 28 0 ^^^ bishopMoves 28 0 = sqBB 1 ||| sqBB 7 ||| sqBB 55 ||| sqBB 56 ∧
    rookMoves 28 0 ≠ specRookRayCast 28 0 ∧
    bishopMoves 28 0 ≠ specBishopRayCast 28 0 := by
  refine ⟨by decide, by decide, by decide, by decide⟩

/-- C4: in `pinRayPos` the rook move e3-e2 is a normal, non-king move whose
origin is a pin blocker of the side to move and whose origin, destination
and king are colinear (all on the e-file), yet `is_legal` returns false:
`in_line2` is constantly false, so the claimed if-and-only-if fails. -/
theorem c4_pinned_ray_move_rejected :
    mvKind pinRayMove = NORMAL ∧
    mvFrom pinRayMove ≠ kingSq pinRayPos pinRayPos.toMove ∧
    (blockersOf pinRayPos.state.cur pinRayPos.toMove &&& sqBB (mvFrom pinRayMove)) ≠ 0 ∧
    specColinear3 (mvFrom pinRayMove) (mvTo pinRayMove)
      (kingSq pinRayPos pinRayPos.toMove) = true ∧
    isLegal pinRayPos pinRayMove = false := by
  refine ⟨by decide, by decide, by decide, by decide, by decide⟩

/-- C5 counterexample: a1 and b3 share no rank, file or diagonal, yet
`line(a1, b3)` is not the empty bitboard - the initialization ORs both
endpoint squares in unconditionally. -/
theorem c5_counterexample :
    specColinear 0 17 = false ∧ lineBB 0 17 ≠ 0 ∧ lineBB 0 17 = sqBB 0 ||| sqBB 17 := by
  refine ⟨by decide, by decide, by decide⟩

set_option maxRecDepth 1000000 in
set_option maxHeartbeats 0 in
/-- C5 as amended: for distinct ok squares, `line(s1, s2)` always contains
both endpoints; when the squares are colinear it is contained in the full
rank/file/diagonal through them (the board-edge ends of the line may be
missing), and when they are not colinear it is exactly the two endpoint
squares rather than the empty board. -/
theorem c5_amended (s1 s2 : Nat) (h1 : s1 < 64) (h2 : s2 < 64) (hne : s1 ≠ s2) :
    (specColinear s1 s2 = true →
      (sqBB s1 ||| sqBB s2) &&& lineBB s1 s2 = sqBB s1 ||| sqBB s2 ∧
      lineBB s1 s2 &&& specLineBB s1 s2 = lineBB s1 s2) ∧
    (specColinear s1 s2 = false → lineBB s1 s2 = sqBB s1 ||| sqBB s2) := by
  have H : ∀ s1, s1 < 64 → ∀ s2, s2 < 64 → s1 ≠ s2 →
      (specColinear s1 s2 = true →
        (sqBB s1 ||| sqBB s2) &&& lineBB s1 s2 = sqBB s1 ||| sqBB s2 ∧
        lineBB s1 s2 &&& specLineBB s1 s2 = lineBB s1 s2) ∧
      (specColinear s1 s2 = false → lineBB s1 s2 = sqBB s1 ||| sqBB s2) := by
    decide
  exact H s1 h1 s2 h2 hne

/-- C5 witness: the amended statement applied to the pair (a1, b1). -/
theorem c5_amended_witness :
    (specColinear 0 1 = true →
      (sqBB 0 ||| sqBB 1) &&& lineBB 0 1 = sqBB 0 ||| sqBB 1 ∧
      lineBB 0 1 &&& specLineBB 0 1 = lineBB 0 1) ∧
    (specColinear 0 1 = false → lineBB 0 1 = sqBB 0 ||| sqBB 1) :=
  c5_amended 0 1 (by decide) (by decide) (by decide)

/-- C7 counterexample: with no legal moves the search does return a score,
but not the claimed one.  A checkmated White receives `f64::NEG_INFINITY`,
which is the alpha sentinel itself rather than a mate value strictly
exceeded in magnitude by the window bounds; a checkmated Black receives
`persp`-negated minus infinity, i.e. plus infinity - a strictly positive
score, not a large negative one. -/
theorem c7_counterexample :
    (∀ pmw, alphaBeta pmw whiteMated 3 = Score.negInf) ∧
    (∀ pmw, alphaBeta pmw whiteMated 3 = persp whiteMated.toMove Score.negInf) ∧
    inCheck whiteMated = true ∧ generateLegal whiteMated = [] ∧
    (∀ pmw, alphaBeta pmw blackMated 3 = Score.posInf) ∧
    (∀ pmw, Score.bgt (alphaBeta pmw blackMated 3) (Score.fin 0) = true) ∧
    inCheck blackMated = true ∧ generateLegal blackMated = [] := by
  exact ⟨fun _ => rfl, fun _ => rfl, by decide, by decide,
         fun _ => rfl, fun _ => rfl, by decide, by decide⟩

/-- C7 as amended: when the side to move has no legal moves the search
returns, without error, the perspective-adjusted static evaluation: the
f64 minus-infinity sentinel if in check (so plus infinity for a mated
Black after the perspective negation, and never a finite mate value inside
the infinite alpha/beta window), and exactly 0 for stalemate. -/
theorem c7_amended (pmw : Nat → Nat → Color → Int) (depth : Nat) (p : Position)
    (alpha beta : Score) (h : generateLegal p = []) :
    alphaBetaInternal pmw depth p alpha beta
      = persp p.toMove (if inCheck p then Score.negInf else Score.fin 0) := by
  have hs : staticEvaluate p = if inCheck p then Score.negInf else Score.fin 0 := by
    unfold staticEvaluate
    rw [h]
    simp
  cases depth with
  | zero =>
    rw [alphaBetaInternal, h]
    simpa using congrArg (persp p.toMove) hs
  | succ d =>
    rw [alphaBetaInternal, h]
    simpa using congrArg (persp p.toMove) hs

/-- C7 witness: the amended statement applied to the mated-White
position. -/
theorem c7_amended_witness :
    alphaBetaInternal (fun _ _ _ => 0) 3 whiteMated Score.negInf Score.posInf
      = persp whiteMated.toMove (if inCheck whiteMated then Score.negInf else Score.fin 0) :=
  c7_amended (fun _ _ _ => 0) 3 whiteMated Score.negInf Score.posInf (by decide)

/-- C8: the deterministic xorshift generator of prng.rs evaluates to fixed
values - here from seed 1070372 (a seed value in Stockfish's per-rank
table): three chained samples ANDed together, reproducibly.  `init_magics`
never calls it: it draws single (not AND-of-three) values from an
entropy-seeded `nanorand::WyRand` instead. -/
theorem c8_prng_deterministic :
    (prngSparse 1070372).2
      = ((prngSample 1070372).2 &&& (prngSample (prngSample 1070372).1).2 &&&
         (prngSample (prngSample (prngSample 1070372).1).1).2) ∧
    (prngSparse 1070372).2 = (prngSparse 1070372).2 &&& (prngSample 1070372).2 := by
  constructor
  · rfl
  · decide

/-! ## Sortedness of the stable insertion sort (for claim C6) -/

/-- An element of an insertion step is the inserted one or an original. -/
theorem mem_insertLe {a : Type} (le : a → a → Bool) (x z : a) :
    ∀ l : List a, z ∈ insertLe le x l → z = x ∨ z ∈ l := by
  intro l
  induction l with
  | nil =>
    intro h
    simp only [insertLe, List.mem_singleton] at h
    exact Or.inl h
  | cons y ys ih =>
    intro h
    rw [insertLe] at h
    by_cases hxy : le x y = true
    · rw [if_pos hxy] at h
      rcases List.mem_cons.mp h with h1 | h1
      · exact Or.inl h1
      · exact Or.inr h1
    · rw [if_neg hxy] at h
      rcases List.mem_cons.mp h with h1 | h1
      · exact Or.inr (h1 ▸ List.mem_cons_self _ _)
      · rcases ih h1 with h2 | h2
        · exact Or.inl h2
        · exact Or.inr (List.mem_cons_of_mem _ h2)

/-- Inserting into a ≤-sorted list keeps it ≤-sorted, given transitivity
and totality of the boolean comparator. -/
theorem pairwise_insertLe {a : Type} (le : a → a → Bool)
    (htrans : ∀ x y z, le x y = true → le y z = true → le x z = true)
    (htot : ∀ x y, le x y = true ∨ le y x = true) (x : a) :
    ∀ l : List a, l.Pairwise (fun u v => le u v = true) →
      (insertLe le x l).Pairwise (fun u v => le u v = true) := by
  intro l
  induction l with
  | nil =>
    intro _
    simp [insertLe]
  | cons y ys ih =>
    intro hp
    rcases List.pairwise_cons.mp hp with ⟨hy, hys⟩
    rw [insertLe]
    by_cases hxy : le x y = true
    · rw [if_pos hxy]
      refine List.pairwise_cons.mpr ⟨?_, hp⟩
      intro z hz
      rcases List.mem_cons.mp hz with rfl | hz
      · exact hxy
      · exact htrans x y z hxy (hy z hz)
    · rw [if_neg hxy]
      refine List.pairwise_cons.mpr ⟨?_, ih hys⟩
      intro z hz
      rcases mem_insertLe le x z ys hz with rfl | hz
      · rcases htot z y with h1 | h1
        · exact absurd h1 hxy
        · exact h1
      · exact hy z hz

/-- Elements of the sorted list come from the input. -/
theorem mem_sortByLe {a : Type} (le : a → a → Bool) (z : a) :
    ∀ l : List a, z ∈ sortByLe le l → z ∈ l := by
  intro l
  induction l with
  | nil =>
    intro h
    simp [sortByLe] at h
  | cons y ys ih =>
    intro h
    rw [sortByLe] at h
    rcases mem_insertLe le y z (sortByLe le ys) h with rfl | h1
    · exact List.mem_cons_self _ _
    · exact List.mem_cons_of_mem _ (ih h1)

/-- The stable insertion sort produces a ≤-sorted list. -/
theorem pairwise_sortByLe {a : Type} (le : a → a → Bool)
    (htrans : ∀ x y z, le x y = true → le y z = true → le x z = true)
    (htot : ∀ x y, le x y = true ∨ le y x = true) :
    ∀ l : List a, (sortByLe le l).Pairwise (fun u v => le u v = true) := by
  intro l
  induction l with
  | nil => simp [sortByLe]
  | cons y ys ih =>
    rw [sortByLe]
    exact pairwise_insertLe le htrans htot y (sortByLe le ys) ih

/-- The comparator unfolded to an arithmetic condition. -/
theorem orderLe_iff (x y : Nat × Int × Nat) :
    orderLe x y = true ↔ (x.2.2 < y.2.2 ∨ (x.2.2 = y.2.2 ∧ x.2.1 ≤ y.2.1)) := by
  unfold orderLe
  by_cases e : x.2.2 = y.2.2 <;> simp [e]

/-- The `order_moves` comparator is transitive. -/
theorem orderLe_trans (x y z : Nat × Int × Nat)
    (h1 : orderLe x y = true) (h2 : orderLe y z = true) : orderLe x z = true := by
  rw [orderLe_iff] at h1 h2 ⊢
  omega

/-- The `order_moves` comparator is total. -/
theorem orderLe_total (x y : Nat × Int × Nat) :
    orderLe x y = true ∨ orderLe y x = true := by
  rw [orderLe_iff, orderLe_iff]
  omega

/-- C6 as amended: after `order_moves`, the move list is ordered by the
comparator the code actually uses - ascending priority group (winning
captures, even captures, quiet moves, losing captures in groups 1, 2, 3, 4)
and, within a group, ascending fixed-point score (float MVV-LVA
`valuef(captured) * 100 - valuef(mover) * 90` for captures), for every
quiet-move weight function; the claimed descending 10-value-minus-value
MVV-LVA order is not used, and the stored list scores stay zero. -/
theorem c6_amended (pmw : Nat → Nat → Color → Int) (p : Position) (l : List Nat) :
    (orderMoves pmw p l).Pairwise (fun m1 m2 =>
      orderLe (m1, orderScore pmw p m1) (m2, orderScore pmw p m2) = true) := by
  unfold orderMoves
  rw [List.pairwise_map]
  have hsorted := pairwise_sortByLe orderLe orderLe_trans orderLe_total
      (l.map (fun m => (m, orderScore pmw p m)))
  refine hsorted.imp_of_mem ?_
  intro a b ha hb hab
  have ha2 : a ∈ l.map (fun m => (m, orderScore pmw p m)) := mem_sortByLe _ _ _ ha
  have hb2 : b ∈ l.map (fun m => (m, orderScore pmw p m)) := mem_sortByLe _ _ _ hb
  rcases List.mem_map.mp ha2 with ⟨ma, _, hma⟩
  rcases List.mem_map.mp hb2 with ⟨mb, _, hmb⟩
  have ea : (a.1, orderScore pmw p a.1) = a := by rw [← hma]
  have eb : (b.1, orderScore pmw p b.1) = b := by rw [← hmb]
  rw [ea, eb]
  exact hab

/-- C6 counterexample: in `twoCapturesPos`, `order_moves` on the two-move
capture list puts pawn-takes-pawn before pawn-takes-queen (ascending
internal score), so the resulting list is not in descending order of the
claimed MVV-LVA score 10*value(captured) - value(mover), whatever the
quiet-move weights. -/
theorem c6_counterexample :
    (∀ pmw, orderMoves pmw twoCapturesPos [pawnTakesPawn, pawnTakesQueen]
        = [pawnTakesPawn, pawnTakesQueen]) ∧
    specCaptureScore twoCapturesPos pawnTakesPawn
      < specCaptureScore twoCapturesPos pawnTakesQueen ∧
    pieceIsOk (pieceOn twoCapturesPos (mvTo pawnTakesPawn)) = true ∧
    pieceIsOk (pieceOn twoCapturesPos (mvTo pawnTakesQueen)) = true ∧
    mvKind pawnTakesPawn = NORMAL ∧ mvKind pawnTakesQueen = NORMAL := by
  exact ⟨fun _ => rfl, by decide, by decide, by decide, by decide, by decide⟩

/-- C10: every leaper, between and line table has exactly 64 (by 64)
entries, so an `is_ok` square (raw index below 64) is in bounds in each of
them - including the two-square tables in both coordinates and the
per-color pawn dimension - while the reserved NULL square (raw index 64)
falls outside every one of them. -/
theorem c10_attack_table_bounds (s1 s2 : Nat) (c : Color)
    (h1 : sqIsOk s1 = true) (h2 : sqIsOk s2 = true) :
    (knightAttacksTable[s1]?.isSome = true ∧
     kingAttacksTable[s1]?.isSome = true ∧
     (pawnAttacksTable[s1]?.bind (fun row => row[c.toNat]?)).isSome = true ∧
     (betweenTable[s1]?.bind (fun row => row[s2]?)).isSome = true ∧
     (lineTable[s1]?.bind (fun row => row[s2]?)).isSome = true) ∧
    (knightAttacksTable[sqNULL]? = none ∧ kingAttacksTable[sqNULL]? = none ∧
     pawnAttacksTable[sqNULL]? = none ∧ betweenTable[sqNULL]? = none ∧
     lineTable[sqNULL]? = none) := by
  have hs1 : s1 < 64 := by simpa [sqIsOk] using h1
  have hs2 : s2 < 64 := by simpa [sqIsOk] using h2
  have hc : c.toNat < 2 := by cases c <;> simp [Color.toNat]
  constructor
  · refine ⟨?_, ?_, ?_, ?_, ?_⟩
    · simp [knightAttacksTable, List.getElem?_map, List.getElem?_range, hs1]
    · simp [kingAttacksTable, List.getElem?_map, List.getElem?_range, hs1]
    · simp only [pawnAttacksTable, List.getElem?_map, List.getElem?_range, hs1]
      cases c <;> simp [Color.toNat]
    · simp only [betweenTable, List.getElem?_map, List.getElem?_range, hs1]
      simp [hs2]
    · simp only [lineTable, List.getElem?_map, List.getElem?_range, hs1]
      simp [hs2]
  · refine ⟨?_, ?_, ?_, ?_, ?_⟩ <;>
      simp [knightAttacksTable, kingAttacksTable, pawnAttacksTable, betweenTable,
            lineTable, sqNULL, List.getElem?_eq_none]

/-! ## Helper lemmas for the do/undo round trip (claim C2) -/

theorem getD_set_self (l : List Nat) (i a d : Nat) (h : i < l.length) :
    (l.set i a).getD i d = a := by
  simp [List.getD_eq_getElem?_getD, List.getElem?_set_self, h]

theorem getD_set_ne (l : List Nat) (i j a d : Nat) (h : i ≠ j) :
    (l.set i a).getD j d = l.getD j d := by
  simp [List.getD_eq_getElem?_getD, List.getElem?_set_ne h]

theorem set_getD_cancel (l : List Nat) (i d : Nat) : l.set i (l.getD i d) = l := by
  induction l generalizing i with
  | nil => rfl
  | cons x xs ih =>
    cases i with
    | zero => simp
    | succ n =>
      simp only [List.getD_cons_succ, List.set]
      rw [ih n]

theorem sqBB_eq_two_pow (s : Nat) (h : s < 64) : sqBB s = 2 ^ s := by
  have hlt : 2 ^ s < U64 := by
    have h2 : (2 : Nat) ^ s < 2 ^ 64 := Nat.pow_lt_pow_right (by omega) h
    simpa [U64] using h2
  simp [sqBB, shl, Nat.shiftLeft_eq, Nat.mod_eq_of_lt hlt]

theorem testBit_sqBB (s t : Nat) (h : s < 64) :
    (sqBB s).testBit t = decide (s = t) := by
  rw [sqBB_eq_two_pow s h]
  exact Nat.testBit_two_pow

theorem lor_sqBB_xor_cancel (x s : Nat) (hs : s < 64)
    (h : x.testBit s = false) : (x ||| sqBB s) ^^^ sqBB s = x := by
  apply Nat.eq_of_testBit_eq
  intro j
  by_cases hj : s = j
  · subst hj
    simp [Nat.testBit_lor, Nat.testBit_xor, testBit_sqBB s s hs, h]
  · simp [Nat.testBit_lor, Nat.testBit_xor, testBit_sqBB s j hs, hj]

theorem xor_sqBB_lor_cancel (x s : Nat) (hs : s < 64)
    (h : x.testBit s = true) : (x ^^^ sqBB s) ||| sqBB s = x := by
  apply Nat.eq_of_testBit_eq
  intro j
  by_cases hj : s = j
  · subst hj
    simp [Nat.testBit_lor, Nat.testBit_xor, testBit_sqBB s s hs, h]
  · simp [Nat.testBit_lor, Nat.testBit_xor, testBit_sqBB s j hs, hj]

theorem lor_xor_sqBB_swap (x s t : Nat) (hs : s < 64) (ht : t < 64) (hne : s ≠ t) :
    (x ||| sqBB s) ^^^ sqBB t = (x ^^^ sqBB t) ||| sqBB s := by
  apply Nat.eq_of_testBit_eq
  intro j
  by_cases hsj : s = j
  · subst hsj
    simp [Nat.testBit_lor, Nat.testBit_xor, testBit_sqBB _ _ hs, testBit_sqBB _ _ ht,
          hne, (Ne.symm hne)]
  · by_cases htj : t = j
    · subst htj
      simp [Nat.testBit_lor, Nat.testBit_xor, testBit_sqBB _ _ hs, testBit_sqBB _ _ ht, hsj]
    · simp [Nat.testBit_lor, Nat.testBit_xor, testBit_sqBB _ _ hs, testBit_sqBB _ _ ht,
            hsj, htj]

theorem testBit_lor_sqBB_ne (x s t : Nat) (hs : s < 64) (hne : t ≠ s) :
    (x ||| sqBB s).testBit t = x.testBit t := by
  simp [Nat.testBit_lor, testBit_sqBB _ _ hs, Ne.symm hne]

theorem testBit_xor_sqBB_ne (x s t : Nat) (hs : s < 64) (hne : t ≠ s) :
    (x ^^^ sqBB s).testBit t = x.testBit t := by
  simp [Nat.testBit_xor, testBit_sqBB _ _ hs, Ne.symm hne]

/-- Color discriminants are 0 and 1. -/
theorem colorToNat_lt (c : Color) : c.toNat < 2 := by
  cases c <;> simp [Color.toNat]

theorem colorToNat_inj (c d : Color) (h : c.toNat = d.toNat) : c = d := by
  cases c <;> cases d <;> simp [Color.toNat] at h ⊢

theorem Color.opp_opp (c : Color) : c.opp.opp = c := by
  cases c <;> rfl

theorem pieceKind_eq_mod (pc : Nat) : pieceKind pc = pc % 8 := by
  have := Nat.and_pow_two_sub_one_eq_mod pc 3
  simpa [pieceKind] using this

theorem pieceKind_lt_six (pc : Nat) (h : pieceIsOk pc = true) : pieceKind pc < 6 := by
  rw [pieceKind_eq_mod]
  simp [pieceIsOk] at h
  omega

/-- A valid piece is rebuilt from its kind and color. -/
theorem piece_eta (pc : Nat) (h : pieceIsOk pc = true) :
    pieceNew (pieceKind pc) (pieceColor pc) = pc := by
  simp only [pieceIsOk, Bool.and_eq_true, decide_eq_true_eq] at h
  have hdiv : pc >>> 3 = pc / 8 := Nat.shiftRight_eq_div_pow pc 3
  rw [pieceNew, pieceKind_eq_mod, pieceColor, hdiv]
  by_cases hc : pc / 8 = 1
  · rw [if_pos hc]
    show Color.black.toNat * 8 + pc % 8 = pc
    simp only [Color.toNat]
    omega
  · rw [if_neg hc]
    show Color.white.toNat * 8 + pc % 8 = pc
    simp only [Color.toNat]
    omega

theorem pieceIsOk_pieceNew (ty : Nat) (c : Color) (h1 : ty < 6) :
    pieceIsOk (pieceNew ty c) = true := by
  cases c <;>
    · simp only [pieceIsOk, pieceNew, Color.toNat, Bool.and_eq_true, decide_eq_true_eq]
      omega

theorem pieceKind_pieceNew (ty : Nat) (c : Color) (h1 : ty < 6) :
    pieceKind (pieceNew ty c) = ty := by
  rw [pieceKind_eq_mod]
  cases c <;>
    · simp only [pieceNew, Color.toNat]
      omega

theorem pieceColor_pieceNew (ty : Nat) (c : Color) (h1 : ty < 6) :
    pieceColor (pieceNew ty c) = c := by
  cases c <;>
    · simp only [pieceNew, pieceColor, Color.toNat]
      norm_num
      omega

theorem pieceIsOk_pNULL : pieceIsOk pNULL = false := by decide

/-! Field-preservation and locality of `add_piece` / `clear_square`. -/

theorem clearSquare_scalars (q : Position) (s : Nat) :
    (clearSquare q s).2.ply = q.ply ∧ (clearSquare q s).2.toMove = q.toMove ∧
    (clearSquare q s).2.state = q.state := by
  simp only [clearSquare]
  split <;> exact ⟨rfl, rfl, rfl⟩

theorem addPiece_scalars (q : Position) (s pc : Nat) :
    (addPiece q s pc).ply = q.ply ∧ (addPiece q s pc).toMove = q.toMove ∧
    (addPiece q s pc).state = q.state := ⟨rfl, rfl, rfl⟩

theorem clearSquare_lengths (q : Position) (s : Nat) :
    (clearSquare q s).2.board.length = q.board.length ∧
    (clearSquare q s).2.colors.length = q.colors.length ∧
    (clearSquare q s).2.pieces.length = q.pieces.length := by
  simp only [clearSquare]
  split <;> simp

theorem addPiece_lengths (q : Position) (s pc : Nat) :
    (addPiece q s pc).board.length = q.board.length ∧
    (addPiece q s pc).colors.length = q.colors.length ∧
    (addPiece q s pc).pieces.length = q.pieces.length := by
  unfold addPiece
  simp

theorem clearSquare_fst (q : Position) (s : Nat) : (clearSquare q s).1 = pieceOn q s := by
  simp only [clearSquare]
  split <;> rfl

theorem getD_set_or (l : List Nat) (i j a d : Nat) :
    (l.set i a).getD j d = if i = j ∧ i < l.length then a else l.getD j d := by
  split
  next hc => exact hc.1 ▸ getD_set_self _ _ _ _ (hc.1 ▸ hc.2)
  next hc =>
    by_cases he : i = j
    · have hlen : l.length ≤ i := by
        rcases Decidable.not_and_iff_or_not.mp hc with h1 | h1
        · exact absurd he h1
        · omega
      rw [List.set_eq_of_length_le hlen]
    · exact getD_set_ne _ _ _ _ _ he

/-- The board cell seen through `add_piece`. -/
theorem pieceOn_addPiece (q : Position) (s pc t : Nat) :
    pieceOn (addPiece q s pc) t
      = if s = t ∧ s < q.board.length then pc else pieceOn q t :=
  getD_set_or _ _ _ _ _

/-- The color bitboards seen through `add_piece`. -/
theorem colorBB_addPiece (q : Position) (s pc : Nat) (c : Color) :
    colorBB (addPiece q s pc) c
      = if (pieceColor pc).toNat = c.toNat ∧ (pieceColor pc).toNat < q.colors.length
        then colorBB q (pieceColor pc) ||| sqBB s else colorBB q c :=
  getD_set_or _ _ _ _ _

/-- The kind bitboards seen through `add_piece`. -/
theorem pieceBB_addPiece (q : Position) (s pc k : Nat) :
    pieceBB (addPiece q s pc) k
      = if pieceKind pc = k ∧ pieceKind pc < q.pieces.length
        then pieceBB q (pieceKind pc) ||| sqBB s else pieceBB q k :=
  getD_set_or _ _ _ _ _

/-- `clear_square` on an occupied cell, field views. -/
theorem clearSquare_occupied (q : Position) (s : Nat)
    (hok : pieceIsOk (pieceOn q s) = true) :
    clearSquare q s = (pieceOn q s,
      { q with
        board := q.board.set s pNULL
        colors := q.colors.set (pieceColor (pieceOn q s)).toNat
                    (colorBB q (pieceColor (pieceOn q s)) ^^^ sqBB s)
        pieces := q.pieces.set (pieceKind (pieceOn q s))
                    (pieceBB q (pieceKind (pieceOn q s)) ^^^ sqBB s) }) := by
  simp only [clearSquare]
  rw [if_pos hok]

/-- `clear_square` on a cell with no valid piece is the identity. -/
theorem clearSquare_empty (q : Position) (s : Nat)
    (hok : pieceIsOk (pieceOn q s) = false) :
    clearSquare q s = (pieceOn q s, q) := by
  simp only [clearSquare]
  rw [if_neg (by simp [hok])]

theorem pieceOn_clearSquare (q : Position) (s t : Nat) :
    pieceOn (clearSquare q s).2 t
      = if pieceIsOk (pieceOn q s) = true ∧ s = t ∧ s < q.board.length then pNULL
        else pieceOn q t := by
  by_cases hok : pieceIsOk (pieceOn q s) = true
  · rw [clearSquare_occupied q s hok]
    show (q.board.set s pNULL).getD t pNULL = _
    rw [getD_set_or]
    simp only [hok, true_and]
    rfl
  · rw [clearSquare_empty q s (by simpa using hok)]
    simp [hok]

theorem colorBB_clearSquare (q : Position) (s : Nat) (c : Color)
    (hok : pieceIsOk (pieceOn q s) = true) :
    colorBB (clearSquare q s).2 c
      = if (pieceColor (pieceOn q s)).toNat = c.toNat ∧
           (pieceColor (pieceOn q s)).toNat < q.colors.length
        then colorBB q (pieceColor (pieceOn q s)) ^^^ sqBB s else colorBB q c := by
  rw [clearSquare_occupied q s hok]
  exact getD_set_or _ _ _ _ _

theorem pieceBB_clearSquare (q : Position) (s : Nat) (k : Nat)
    (hok : pieceIsOk (pieceOn q s) = true) :
    pieceBB (clearSquare q s).2 k
      = if pieceKind (pieceOn q s) = k ∧ pieceKind (pieceOn q s) < q.pieces.length
        then pieceBB q (pieceKind (pieceOn q s)) ^^^ sqBB s else pieceBB q k := by
  rw [clearSquare_occupied q s hok]
  exact getD_set_or _ _ _ _ _

theorem pieceOn_addPiece_ne (q : Position) (s pc t : Nat) (h : t ≠ s) :
    pieceOn (addPiece q s pc) t = pieceOn q t := by
  rw [pieceOn_addPiece, if_neg (fun hc => h hc.1.symm)]

theorem pieceOn_clearSquare_ne (q : Position) (s t : Nat) (h : t ≠ s) :
    pieceOn (clearSquare q s).2 t = pieceOn q t := by
  rw [pieceOn_clearSquare, if_neg (fun hc => h hc.2.1.symm)]

theorem colorBB_addPiece_testBit_ne (q : Position) (s pc t : Nat) (c : Color)
    (hs : s < 64) (h : t ≠ s) :
    (colorBB (addPiece q s pc) c).testBit t = (colorBB q c).testBit t := by
  rw [colorBB_addPiece]
  split
  next hc =>
    rw [testBit_lor_sqBB_ne _ _ _ hs h]
    unfold colorBB
    rw [colorToNat_inj _ _ hc.1]
  next => rfl

theorem colorBB_clearSquare_testBit_ne (q : Position) (s t : Nat) (c : Color)
    (hs : s < 64) (h : t ≠ s) :
    (colorBB (clearSquare q s).2 c).testBit t = (colorBB q c).testBit t := by
  by_cases hok : pieceIsOk (pieceOn q s) = true
  · rw [colorBB_clearSquare q s c hok]
    split
    next hc =>
      rw [testBit_xor_sqBB_ne _ _ _ hs h]
      unfold colorBB
      rw [colorToNat_inj _ _ hc.1]
    next => rfl
  · rw [clearSquare_empty q s (by simpa using hok)]

theorem pieceBB_addPiece_testBit_ne (q : Position) (s pc t k : Nat)
    (hs : s < 64) (h : t ≠ s) :
    (pieceBB (addPiece q s pc) k).testBit t = (pieceBB q k).testBit t := by
  rw [pieceBB_addPiece]
  split
  next hc =>
    rw [testBit_lor_sqBB_ne _ _ _ hs h]
    unfold pieceBB
    rw [hc.1]
  next => rfl

theorem pieceBB_clearSquare_testBit_ne (q : Position) (s t k : Nat)
    (hs : s < 64) (h : t ≠ s) :
    (pieceBB (clearSquare q s).2 k).testBit t = (pieceBB q k).testBit t := by
  by_cases hok : pieceIsOk (pieceOn q s) = true
  · rw [pieceBB_clearSquare q s k hok]
    split
    next hc =>
      rw [testBit_xor_sqBB_ne _ _ _ hs h]
      unfold pieceBB
      rw [hc.1]
    next => rfl
  · rw [clearSquare_empty q s (by simpa using hok)]

theorem WF.color {p : Position} (hwf : WF p) (c : Color) : WFColor p c := by
  cases c
  · exact hwf.2.2.2.2.1
  · exact hwf.2.2.2.2.2.1

theorem WF.kind {p : Position} (hwf : WF p) (k : Nat) (hk : k < 6) : WFKind p k :=
  hwf.2.2.2.2.2.2 k hk

/-- A color bit is clear on an empty square. -/
theorem colorBB_testBit_of_empty {q : Position} (hwf : WF q) (s : Nat) (c : Color)
    (hs : s < 64) (hempty : pieceOn q s = pNULL) :
    (colorBB q c).testBit s = false := by
  have hiff := hwf.color c s hs
  rw [hempty, pieceIsOk_pNULL] at hiff
  simp at hiff
  exact hiff

/-- A kind bit is clear on an empty square. -/
theorem pieceBB_testBit_of_empty {q : Position} (hwf : WF q) (s k : Nat)
    (hs : s < 64) (hk : k < 6) (hempty : pieceOn q s = pNULL) :
    (pieceBB q k).testBit s = false := by
  have hiff := hwf.kind k hk s hs
  rw [hempty, pieceIsOk_pNULL] at hiff
  simp at hiff
  exact hiff

/-- The bit of an occupied square is set in its own color and kind
bitboards. -/
theorem bits_of_occupied {q : Position} (hwf : WF q) (s : Nat)
    (hs : s < 64) (hok : pieceIsOk (pieceOn q s) = true) :
    (colorBB q (pieceColor (pieceOn q s))).testBit s = true ∧
    (pieceBB q (pieceKind (pieceOn q s))).testBit s = true := by
  constructor
  · exact (hwf.color (pieceColor (pieceOn q s)) s hs).mpr ⟨hok, rfl⟩
  · exact (hwf.kind (pieceKind (pieceOn q s)) (pieceKind_lt_six _ hok) s hs).mpr ⟨hok, rfl⟩

/-- Structure extensionality for positions. -/
theorem Position.ext2 (p q : Position)
    (hb : p.board = q.board) (hk : p.pieces = q.pieces) (hc : p.colors = q.colors)
    (hp : p.ply = q.ply) (ht : p.toMove = q.toMove) (hs : p.state = q.state) : p = q := by
  cases p
  cases q
  simp_all

/-- Clearing a just-added piece undoes the addition. -/
theorem clear_add_cancel (q : Position) (s pc : Nat)
    (hwf : WF q) (hs : s < 64) (hok : pieceIsOk pc = true)
    (hempty : pieceOn q s = pNULL) :
    clearSquare (addPiece q s pc) s = (pc, q) := by
  have hsb : s < q.board.length := by rw [hwf.1]; exact hs
  have hci : (pieceColor pc).toNat < q.colors.length := by
    rw [hwf.2.2.1]; exact colorToNat_lt _
  have hki : pieceKind pc < q.pieces.length := by
    rw [hwf.2.1]; exact pieceKind_lt_six pc hok
  have hpon : pieceOn (addPiece q s pc) s = pc := by
    rw [pieceOn_addPiece, if_pos ⟨rfl, hsb⟩]
  have hcbb : colorBB (addPiece q s pc) (pieceColor pc)
      = colorBB q (pieceColor pc) ||| sqBB s := by
    rw [colorBB_addPiece, if_pos ⟨rfl, hci⟩]
  have hkbb : pieceBB (addPiece q s pc) (pieceKind pc)
      = pieceBB q (pieceKind pc) ||| sqBB s := by
    rw [pieceBB_addPiece, if_pos ⟨rfl, hki⟩]
  rw [clearSquare_occupied _ _ (by rw [hpon]; exact hok)]
  rw [Prod.mk.injEq]
  refine ⟨hpon, Position.ext2 _ _ ?_ ?_ ?_ rfl rfl rfl⟩
  · show (q.board.set s pc).set s pNULL = q.board
    rw [List.set_set, ← hempty]
    exact set_getD_cancel _ _ _
  · show ((addPiece q s pc).pieces).set (pieceKind (pieceOn (addPiece q s pc) s))
        (pieceBB (addPiece q s pc) (pieceKind (pieceOn (addPiece q s pc) s)) ^^^ sqBB s)
      = q.pieces
    rw [hpon, hkbb]
    show (q.pieces.set (pieceKind pc) (pieceBB q (pieceKind pc) ||| sqBB s)).set
        (pieceKind pc) ((pieceBB q (pieceKind pc) ||| sqBB s) ^^^ sqBB s) = q.pieces
    rw [List.set_set,
        lor_sqBB_xor_cancel _ _ hs
          (pieceBB_testBit_of_empty hwf s (pieceKind pc) hs (pieceKind_lt_six pc hok) hempty)]
    exact set_getD_cancel _ _ _
  · show ((addPiece q s pc).colors).set (pieceColor (pieceOn (addPiece q s pc) s)).toNat
        (colorBB (addPiece q s pc) (pieceColor (pieceOn (addPiece q s pc) s)) ^^^ sqBB s)
      = q.colors
    rw [hpon, hcbb]
    show (q.colors.set (pieceColor pc).toNat (colorBB q (pieceColor pc) ||| sqBB s)).set
        (pieceColor pc).toNat ((colorBB q (pieceColor pc) ||| sqBB s) ^^^ sqBB s) = q.colors
    rw [List.set_set,
        lor_sqBB_xor_cancel _ _ hs (colorBB_testBit_of_empty hwf s (pieceColor pc) hs hempty)]
    exact set_getD_cancel _ _ _

/-- Adding back a just-cleared piece undoes the clearing. -/
theorem add_clear_cancel (q : Position) (s : Nat)
    (hwf : WF q) (hs : s < 64) (hok : pieceIsOk (pieceOn q s) = true) :
    addPiece (clearSquare q s).2 s (pieceOn q s) = q := by
  have hci : (pieceColor (pieceOn q s)).toNat < q.colors.length := by
    rw [hwf.2.2.1]; exact colorToNat_lt _
  have hki : pieceKind (pieceOn q s) < q.pieces.length := by
    rw [hwf.2.1]; exact pieceKind_lt_six _ hok
  obtain ⟨hcb, hkb⟩ := bits_of_occupied hwf s hs hok
  rw [clearSquare_occupied q s hok]
  refine Position.ext2 _ _ ?_ ?_ ?_ rfl rfl rfl
  · show (q.board.set s pNULL).set s (pieceOn q s) = q.board
    rw [List.set_set]
    exact set_getD_cancel _ _ _
  · show (q.pieces.set (pieceKind (pieceOn q s))
        (pieceBB q (pieceKind (pieceOn q s)) ^^^ sqBB s)).set (pieceKind (pieceOn q s))
        (pieceBB { q with
            board := q.board.set s pNULL
            colors := q.colors.set (pieceColor (pieceOn q s)).toNat
                        (colorBB q (pieceColor (pieceOn q s)) ^^^ sqBB s)
            pieces := q.pieces.set (pieceKind (pieceOn q s))
                        (pieceBB q (pieceKind (pieceOn q s)) ^^^ sqBB s) }
          (pieceKind (pieceOn q s)) ||| sqBB s) = q.pieces
    have hread : pieceBB { q with
            board := q.board.set s pNULL
            colors := q.colors.set (pieceColor (pieceOn q s)).toNat
                        (colorBB q (pieceColor (pieceOn q s)) ^^^ sqBB s)
            pieces := q.pieces.set (pieceKind (pieceOn q s))
                        (pieceBB q (pieceKind (pieceOn q s)) ^^^ sqBB s) }
          (pieceKind (pieceOn q s))
        = pieceBB q (pieceKind (pieceOn q s)) ^^^ sqBB s := by
      show (q.pieces.set (pieceKind (pieceOn q s)) _).getD (pieceKind (pieceOn q s)) 0 = _
      exact getD_set_self _ _ _ _ hki
    rw [hread, List.set_set, xor_sqBB_lor_cancel _ _ hs hkb]
    exact set_getD_cancel _ _ _
  · show (q.colors.set (pieceColor (pieceOn q s)).toNat
        (colorBB q (pieceColor (pieceOn q s)) ^^^ sqBB s)).set (pieceColor (pieceOn q s)).toNat
        (colorBB { q with
            board := q.board.set s pNULL
            colors := q.colors.set (pieceColor (pieceOn q s)).toNat
                        (colorBB q (pieceColor (pieceOn q s)) ^^^ sqBB s)
            pieces := q.pieces.set (pieceKind (pieceOn q s))
                        (pieceBB q (pieceKind (pieceOn q s)) ^^^ sqBB s) }
          (pieceColor (pieceOn q s)) ||| sqBB s) = q.colors
    have hread : colorBB { q with
            board := q.board.set s pNULL
            colors := q.colors.set (pieceColor (pieceOn q s)).toNat
                        (colorBB q (pieceColor (pieceOn q s)) ^^^ sqBB s)
            pieces := q.pieces.set (pieceKind (pieceOn q s))
                        (pieceBB q (pieceKind (pieceOn q s)) ^^^ sqBB s) }
          (pieceColor (pieceOn q s))
        = colorBB q (pieceColor (pieceOn q s)) ^^^ sqBB s := by
      show (q.colors.set (pieceColor (pieceOn q s)).toNat _).getD
          (pieceColor (pieceOn q s)).toNat 0 = _
      exact getD_set_self _ _ _ _ hci
    rw [hread, List.set_set, xor_sqBB_lor_cancel _ _ hs hcb]
    exact set_getD_cancel _ _ _

theorem mvKind_lt (m : Nat) : mvKind m < 4 :=
  Nat.lt_succ_of_le (Nat.and_le_right)

theorem rankOf_lt (s : Nat) : rankOf s < 8 :=
  Nat.lt_succ_of_le (Nat.and_le_right)

theorem sqCreate_lt (f r : Nat) (hf : f < 8) (hr : r < 8) : sqCreate f r < 64 := by
  unfold sqCreate
  omega

theorem occupied_lt (q : Position) (hb : q.board.length = 64) (s : Nat)
    (hok : pieceIsOk (pieceOn q s) = true) : s < 64 := by
  by_contra h
  have hnull : pieceOn q s = pNULL := by
    unfold pieceOn
    rw [List.getD_eq_getElem?_getD, List.getElem?_eq_none (by omega)]
    rfl
  rw [hnull, pieceIsOk_pNULL] at hok
  exact Bool.false_ne_true hok

theorem cell_null_of_not_ok (q : Position) (hwf : WF q) (s : Nat) (hs : s < 64)
    (h : pieceIsOk (pieceOn q s) = false) : pieceOn q s = pNULL := by
  rcases hwf.2.2.2.1 s hs with h1 | h1
  · simp [h1] at h
  · exact h1

theorem rankOf_sqRelative4 (c : Color) : rankOf (sqRelative 4 c) = rankRelative 0 c := by
  cases c <;> decide

theorem addPiece_withScalars (q : Position) (pl : Int) (tm : Color) (st : State) (s pc : Nat) :
    addPiece { q with ply := pl, toMove := tm, state := st } s pc
      = { addPiece q s pc with ply := pl, toMove := tm, state := st } := rfl

theorem clearSquare_withScalars (q : Position) (pl : Int) (tm : Color) (st : State) (s : Nat) :
    clearSquare { q with ply := pl, toMove := tm, state := st } s
      = ((clearSquare q s).1,
         { (clearSquare q s).2 with ply := pl, toMove := tm, state := st }) := by
  cases hok : pieceIsOk (pieceOn q s) with
  | true =>
    rw [clearSquare_occupied { q with ply := pl, toMove := tm, state := st } s hok,
        clearSquare_occupied q s hok]
    rfl
  | false =>
    rw [clearSquare_empty { q with ply := pl, toMove := tm, state := st } s hok,
        clearSquare_empty q s hok]
    rfl

theorem WF_clearSquare (q : Position) (s : Nat) (hwf : WF q) : WF (clearSquare q s).2 := by
  cases hok : pieceIsOk (pieceOn q s) with
  | false => rw [clearSquare_empty q s hok]; exact hwf
  | true =>
    have hs : s < 64 := occupied_lt q hwf.1 s hok
    have hsb : s < q.board.length := by rw [hwf.1]; exact hs
    obtain ⟨hcb, hkb⟩ := bits_of_occupied hwf s hs hok
    have hcells : ∀ t, t < 64 →
        pieceIsOk (pieceOn (clearSquare q s).2 t) = true ∨
        pieceOn (clearSquare q s).2 t = pNULL := by
      intro t ht
      rw [pieceOn_clearSquare]
      split
      · exact Or.inr rfl
      · exact hwf.2.2.2.1 t ht
    have hcolor : ∀ c : Color, WFColor (clearSquare q s).2 c := by
      intro c t ht
      by_cases hts : t = s
      · subst hts
        have hcell : pieceOn (clearSquare q t).2 t = pNULL := by
          rw [pieceOn_clearSquare, if_pos ⟨hok, rfl, hsb⟩]
        rw [hcell, pieceIsOk_pNULL]
        simp only [Bool.false_eq_true, false_and, iff_false]
        rw [colorBB_clearSquare q t c hok]
        split
        next hc =>
          rw [Nat.testBit_xor, testBit_sqBB _ _ ht]
          simp [hcb]
        next hc =>
          have hcne : pieceColor (pieceOn q t) ≠ c := by
            intro he
            exact hc ⟨by rw [he], by rw [hwf.2.2.1]; exact colorToNat_lt _⟩
          intro habs
          exact hcne ((hwf.color c t ht).mp habs).2
      · rw [colorBB_clearSquare_testBit_ne q s t c hs hts,
            pieceOn_clearSquare_ne q s t hts]
        exact hwf.color c t ht
    have hkind : ∀ k, k < 6 → WFKind (clearSquare q s).2 k := by
      intro k hk t ht
      by_cases hts : t = s
      · subst hts
        have hcell : pieceOn (clearSquare q t).2 t = pNULL := by
          rw [pieceOn_clearSquare, if_pos ⟨hok, rfl, hsb⟩]
        rw [hcell, pieceIsOk_pNULL]
        simp only [Bool.false_eq_true, false_and, iff_false]
        rw [pieceBB_clearSquare q t k hok]
        split
        next hc =>
          rw [Nat.testBit_xor, testBit_sqBB _ _ ht]
          simp [hkb]
        next hc =>
          have hkne : pieceKind (pieceOn q t) ≠ k := by
            intro he
            exact hc ⟨he, by rw [hwf.2.1]; exact pieceKind_lt_six _ hok⟩
          intro habs
          exact hkne ((hwf.kind k hk t ht).mp habs).2
      · rw [pieceBB_clearSquare_testBit_ne q s t k hs hts,
            pieceOn_clearSquare_ne q s t hts]
        exact hwf.kind k hk t ht
    exact ⟨(clearSquare_lengths q s).1.trans hwf.1,
           (clearSquare_lengths q s).2.2.trans hwf.2.1,
           (clearSquare_lengths q s).2.1.trans hwf.2.2.1,
           hcells, hcolor .white, hcolor .black, hkind⟩

theorem WF_addPiece (q : Position) (s pc : Nat) (hwf : WF q) (hs : s < 64)
    (hok : pieceIsOk pc = true) (hempty : pieceOn q s = pNULL) :
    WF (addPiece q s pc) := by
  have hsb : s < q.board.length := by rw [hwf.1]; exact hs
  have hcells : ∀ t, t < 64 →
      pieceIsOk (pieceOn (addPiece q s pc) t) = true ∨
      pieceOn (addPiece q s pc) t = pNULL := by
    intro t ht
    rw [pieceOn_addPiece]
    split
    · exact Or.inl hok
    · exact hwf.2.2.2.1 t ht
  have hcolor : ∀ c : Color, WFColor (addPiece q s pc) c := by
    intro c t ht
    by_cases hts : t = s
    · subst hts
      have hcell : pieceOn (addPiece q t pc) t = pc := by
        rw [pieceOn_addPiece, if_pos ⟨rfl, hsb⟩]
      rw [hcell, hok]
      rw [colorBB_addPiece]
      split
      next hc =>
        have hceq : pieceColor pc = c := colorToNat_inj _ _ hc.1
        rw [Nat.testBit_lor, testBit_sqBB _ _ ht]
        simp [hceq]
      next hc =>
        have hcne : pieceColor pc ≠ c := by
          intro he
          exact hc ⟨by rw [he], by rw [hwf.2.2.1]; exact colorToNat_lt _⟩
        rw [colorBB_testBit_of_empty hwf t c ht hempty]
        simp [hcne]
    · rw [colorBB_addPiece_testBit_ne q s pc t c hs hts,
          pieceOn_addPiece_ne q s pc t hts]
      exact hwf.color c t ht
  have hkind : ∀ k, k < 6 → WFKind (addPiece q s pc) k := by
    intro k hk t ht
    by_cases hts : t = s
    · subst hts
      have hcell : pieceOn (addPiece q t pc) t = pc := by
        rw [pieceOn_addPiece, if_pos ⟨rfl, hsb⟩]
      rw [hcell, hok]
      rw [pieceBB_addPiece]
      split
      next hc =>
        rw [Nat.testBit_lor, testBit_sqBB _ _ ht, hc.1]
        simp
      next hc =>
        have hkne : pieceKind pc ≠ k := by
          intro he
          exact hc ⟨he, by rw [hwf.2.1]; exact pieceKind_lt_six _ hok⟩
        rw [pieceBB_testBit_of_empty hwf t k ht hk hempty]
        simp [hkne]
    · rw [pieceBB_addPiece_testBit_ne q s pc t k hs hts,
          pieceOn_addPiece_ne q s pc t hts]
      exact hwf.kind k hk t ht
  exact ⟨(addPiece_lengths q s pc).1.trans hwf.1,
         (addPiece_lengths q s pc).2.2.trans hwf.2.1,
         (addPiece_lengths q s pc).2.1.trans hwf.2.2.1,
         hcells, hcolor .white, hcolor .black, hkind⟩

theorem addPiece_addPiece_comm (q : Position) (s t pcS pcT : Nat)
    (hwf : WF q) (hs : s < 64) (ht : t < 64) (hne : s ≠ t)
    (hS : pieceIsOk pcS = true) (hT : pieceIsOk pcT = true) :
    addPiece (addPiece q s pcS) t pcT = addPiece (addPiece q t pcT) s pcS := by
  have hciS : (pieceColor pcS).toNat < q.colors.length := by
    rw [hwf.2.2.1]; exact colorToNat_lt _
  have hciT : (pieceColor pcT).toNat < q.colors.length := by
    rw [hwf.2.2.1]; exact colorToNat_lt _
  have hkiS : pieceKind pcS < q.pieces.length := by
    rw [hwf.2.1]; exact pieceKind_lt_six _ hS
  have hkiT : pieceKind pcT < q.pieces.length := by
    rw [hwf.2.1]; exact pieceKind_lt_six _ hT
  refine Position.ext2 _ _ ?_ ?_ ?_ rfl rfl rfl
  · show (q.board.set s pcS).set t pcT = (q.board.set t pcT).set s pcS
    exact List.set_comm _ _ _ hne
  · show (q.pieces.set (pieceKind pcS) (pieceBB q (pieceKind pcS) ||| sqBB s)).set
        (pieceKind pcT) (pieceBB (addPiece q s pcS) (pieceKind pcT) ||| sqBB t)
      = (q.pieces.set (pieceKind pcT) (pieceBB q (pieceKind pcT) ||| sqBB t)).set
        (pieceKind pcS) (pieceBB (addPiece q t pcT) (pieceKind pcS) ||| sqBB s)
    rw [pieceBB_addPiece, pieceBB_addPiece]
    by_cases hk : pieceKind pcS = pieceKind pcT
    · rw [if_pos ⟨hk, hkiS⟩, if_pos ⟨hk.symm, hkiT⟩, ← hk, List.set_set, List.set_set,
          Nat.lor_assoc, Nat.lor_assoc, Nat.lor_comm (sqBB s) (sqBB t)]
    · rw [if_neg (fun hc => hk hc.1), if_neg (fun hc => hk hc.1.symm)]
      exact List.set_comm _ _ _ hk
  · show (q.colors.set (pieceColor pcS).toNat (colorBB q (pieceColor pcS) ||| sqBB s)).set
        (pieceColor pcT).toNat (colorBB (addPiece q s pcS) (pieceColor pcT) ||| sqBB t)
      = (q.colors.set (pieceColor pcT).toNat (colorBB q (pieceColor pcT) ||| sqBB t)).set
        (pieceColor pcS).toNat (colorBB (addPiece q t pcT) (pieceColor pcS) ||| sqBB s)
    rw [colorBB_addPiece, colorBB_addPiece]
    by_cases hcc : (pieceColor pcS).toNat = (pieceColor pcT).toNat
    · have hceq : pieceColor pcS = pieceColor pcT := colorToNat_inj _ _ hcc
      rw [if_pos ⟨hcc, hciS⟩, if_pos ⟨hcc.symm, hciT⟩, ← hceq, List.set_set, List.set_set,
          Nat.lor_assoc, Nat.lor_assoc, Nat.lor_comm (sqBB s) (sqBB t)]
    · rw [if_neg (fun hc => hcc hc.1), if_neg (fun hc => hcc hc.1.symm)]
      exact List.set_comm _ _ _ hcc

theorem clearSquare_addPiece_comm (q : Position) (s t pc : Nat)
    (hwf : WF q) (hs : s < 64) (ht : t < 64) (hne : s ≠ t)
    (hok : pieceIsOk pc = true) :
    clearSquare (addPiece q s pc) t
      = ((clearSquare q t).1, addPiece (clearSquare q t).2 s pc) := by
  have hA : pieceOn (addPiece q s pc) t = pieceOn q t :=
    pieceOn_addPiece_ne q s pc t (Ne.symm hne)
  cases hokt : pieceIsOk (pieceOn q t) with
  | false =>
    rw [clearSquare_empty _ t (by rw [hA]; exact hokt), clearSquare_empty q t hokt, hA]
  | true =>
    have hciS : (pieceColor pc).toNat < q.colors.length := by
      rw [hwf.2.2.1]; exact colorToNat_lt _
    have hciT : (pieceColor (pieceOn q t)).toNat < q.colors.length := by
      rw [hwf.2.2.1]; exact colorToNat_lt _
    have hkiS : pieceKind pc < q.pieces.length := by
      rw [hwf.2.1]; exact pieceKind_lt_six _ hok
    have hkiT : pieceKind (pieceOn q t) < q.pieces.length := by
      rw [hwf.2.1]; exact pieceKind_lt_six _ hokt
    rw [clearSquare_occupied _ t (by rw [hA]; exact hokt), clearSquare_occupied q t hokt,
        Prod.mk.injEq, hA]
    refine ⟨rfl, Position.ext2 _ _ ?_ ?_ ?_ rfl rfl rfl⟩
    · show (q.board.set s pc).set t pNULL = (q.board.set t pNULL).set s pc
      exact List.set_comm _ _ _ hne
    · show (q.pieces.set (pieceKind pc) (pieceBB q (pieceKind pc) ||| sqBB s)).set
          (pieceKind (pieceOn q t))
          (pieceBB (addPiece q s pc) (pieceKind (pieceOn q t)) ^^^ sqBB t)
        = (q.pieces.set (pieceKind (pieceOn q t))
            (pieceBB q (pieceKind (pieceOn q t)) ^^^ sqBB t)).set (pieceKind pc)
          ((q.pieces.set (pieceKind (pieceOn q t))
              (pieceBB q (pieceKind (pieceOn q t)) ^^^ sqBB t)).getD (pieceKind pc) 0 |||
            sqBB s)
      rw [pieceBB_addPiece, getD_set_or]
      by_cases hk : pieceKind pc = pieceKind (pieceOn q t)
      · rw [if_pos ⟨hk, hkiS⟩, if_pos ⟨hk.symm, hkiT⟩, ← hk, List.set_set, List.set_set,
            lor_xor_sqBB_swap _ s t hs ht hne]
      · rw [if_neg (fun hc => hk hc.1), if_neg (fun hc => hk hc.1.symm)]
        exact List.set_comm _ _ _ hk
    · show (q.colors.set (pieceColor pc).toNat (colorBB q (pieceColor pc) ||| sqBB s)).set
          (pieceColor (pieceOn q t)).toNat
          (colorBB (addPiece q s pc) (pieceColor (pieceOn q t)) ^^^ sqBB t)
        = (q.colors.set (pieceColor (pieceOn q t)).toNat
            (colorBB q (pieceColor (pieceOn q t)) ^^^ sqBB t)).set (pieceColor pc).toNat
          ((q.colors.set (pieceColor (pieceOn q t)).toNat
              (colorBB q (pieceColor (pieceOn q t)) ^^^ sqBB t)).getD (pieceColor pc).toNat 0 |||
            sqBB s)
      rw [colorBB_addPiece, getD_set_or]
      by_cases hcc : (pieceColor pc).toNat = (pieceColor (pieceOn q t)).toNat
      · have hceq : pieceColor pc = pieceColor (pieceOn q t) := colorToNat_inj _ _ hcc
        rw [if_pos ⟨hcc, hciS⟩, if_pos ⟨hcc.symm, hciT⟩, ← hceq, List.set_set, List.set_set,
            lor_xor_sqBB_swap _ s t hs ht hne]
      · rw [if_neg (fun hc => hcc hc.1), if_neg (fun hc => hcc hc.1.symm)]
        exact List.set_comm _ _ _ hcc

theorem dmShuffle_normal (p : Position) (m : Nat) (hty : mvKind m = NORMAL) :
    dmShuffle p m
      = ((clearSquare (clearSquare p (mvFrom m)).2 (mvTo m)).1,
         addPiece (clearSquare (clearSquare p (mvFrom m)).2 (mvTo m)).2 (mvTo m)
           (clearSquare p (mvFrom m)).1) := by
  simp only [dmShuffle, hty, NORMAL, ENPASSANT, CASTLE, PROMOTION]
  norm_num

theorem dmShuffle_promo (p : Position) (m : Nat) (hty : mvKind m = PROMOTION) :
    dmShuffle p m
      = ((clearSquare (clearSquare p (mvFrom m)).2 (mvTo m)).1,
         addPiece (clearSquare (clearSquare p (mvFrom m)).2 (mvTo m)).2 (mvTo m)
           (pieceNew (mvPromo m) p.toMove)) := by
  simp only [dmShuffle, hty, NORMAL, ENPASSANT, CASTLE, PROMOTION]
  norm_num

theorem dmShuffle_ep (p : Position) (m : Nat) (hty : mvKind m = ENPASSANT) :
    dmShuffle p m
      = clearSquare
          (addPiece (clearSquare (clearSquare p (mvFrom m)).2 (mvTo m)).2 (mvTo m)
            (clearSquare p (mvFrom m)).1)
          (getSquare (pawnPush p.toMove.opp (sqBB (mvTo m)))) := by
  simp only [dmShuffle, hty, NORMAL, ENPASSANT, CASTLE, PROMOTION]
  norm_num

theorem dmShuffle_castle (p : Position) (m : Nat) (hty : mvKind m = CASTLE) :
    dmShuffle p m
      = ((clearSquare (clearSquare p (mvFrom m)).2 (mvTo m)).1,
         addPiece
           (clearSquare
             (addPiece (clearSquare (clearSquare p (mvFrom m)).2 (mvTo m)).2 (mvTo m)
               (clearSquare p (mvFrom m)).1)
             (sqCreate (if fileOf (mvTo m) = 2 then 0 else 7) (rankOf (mvFrom m)))).2
           (sqCreate (if fileOf (mvTo m) = 2 then 3 else 5) (rankOf (mvFrom m)))
           (clearSquare
             (addPiece (clearSquare (clearSquare p (mvFrom m)).2 (mvTo m)).2 (mvTo m)
               (clearSquare p (mvFrom m)).1)
             (sqCreate (if fileOf (mvTo m) = 2 then 0 else 7) (rankOf (mvFrom m)))).1) := by
  simp only [dmShuffle, hty, NORMAL, ENPASSANT, CASTLE, PROMOTION]
  norm_num

/-! C2 development: cancellation and commutation algebra of
`clear_square` / `add_piece`, the per-move-type undo lemmas, and the
round-trip theorem. -/

theorem clearSquare_addPiece_comm_snd (q : Position) (s t pc : Nat)
    (hwf : WF q) (hs : s < 64) (ht : t < 64) (hne : s ≠ t)
    (hok : pieceIsOk pc = true) :
    addPiece (clearSquare q t).2 s pc = (clearSquare (addPiece q s pc) t).2 := by
  rw [clearSquare_addPiece_comm q s t pc hwf hs ht hne hok]

theorem undo_do_aux_normal (p : Position) (m : Nat) (hwf : WF p) (hok : DoOK p m)
    (hty : mvKind m = NORMAL) :
    undoCore { (dmShuffle p m).2 with
               ply := p.ply + 1,
               toMove := p.toMove.opp,
               state := { cur := { p.state.cur with captured := (dmShuffle p m).1 },
                          prev := p.state.cur :: p.state.prev } }
      m p.state.cur p.state.prev = p := by
  obtain ⟨hne, hF, hT, hbok, hbcol, hcapcol, hprom, hep, hcas⟩ := hok
  have hb1 : (clearSquare p (mvFrom m)).1 = pieceOn p (mvFrom m) := clearSquare_fst p _
  have hcapP1 : pieceOn (clearSquare p (mvFrom m)).2 (mvTo m) = pieceOn p (mvTo m) :=
    pieceOn_clearSquare_ne p _ _ (Ne.symm hne)
  have hcap1 : (clearSquare (clearSquare p (mvFrom m)).2 (mvTo m)).1 = pieceOn p (mvTo m) := by
    rw [clearSquare_fst, hcapP1]
  have hWF1 : WF (clearSquare p (mvFrom m)).2 := WF_clearSquare p _ hwf
  have hlen1 : (clearSquare p (mvFrom m)).2.board.length = 64 := hWF1.1
  rw [dmShuffle_normal p m hty]
  rw [hcap1, hb1]
  simp only [undoCore, Color.opp_opp, hty,
    if_neg (show ¬(NORMAL = PROMOTION) from by decide),
    if_neg (show ¬(NORMAL = ENPASSANT) from by decide),
    if_neg (show ¬(NORMAL = CASTLE) from by decide)]
  by_cases hcap : pieceIsOk (pieceOn p (mvTo m)) = true
  · -- capture: the cleared destination piece is restored last
    have hWF2 : WF (clearSquare (clearSquare p (mvFrom m)).2 (mvTo m)).2 :=
      WF_clearSquare _ _ hWF1
    have hP2T : pieceOn (clearSquare (clearSquare p (mvFrom m)).2 (mvTo m)).2 (mvTo m)
        = pNULL := by
      rw [pieceOn_clearSquare, if_pos ⟨by rw [hcapP1]; exact hcap, rfl, by omega⟩]
    rw [if_pos hcap]
    simp only [clearSquare_withScalars, addPiece_withScalars,
      clear_add_cancel _ _ _ hWF2 hT hbok hP2T,
      clearSquare_addPiece_comm_snd _ (mvFrom m) (mvTo m) _ hWF1 hF hT hne hbok,
      add_clear_cancel p _ hwf hF hbok,
      add_clear_cancel p _ hwf hT hcap]
    exact Position.ext2 _ p rfl rfl rfl (show p.ply + 1 - 1 = p.ply from by omega) rfl rfl
  · -- quiet move
    have hcapf : pieceIsOk (pieceOn p (mvTo m)) = false := by simpa using hcap
    have hquiet : pieceOn p (mvTo m) = pNULL := cell_null_of_not_ok p hwf _ hT hcapf
    have hP1e : clearSquare (clearSquare p (mvFrom m)).2 (mvTo m)
        = (pieceOn p (mvTo m), (clearSquare p (mvFrom m)).2) := by
      rw [clearSquare_empty _ _ (by rw [hcapP1]; exact hcapf), hcapP1]
    have hempty1 : pieceOn (clearSquare p (mvFrom m)).2 (mvTo m) = pNULL := by
      rw [hcapP1]; exact hquiet
    rw [if_neg hcap]
    simp only [hP1e, clearSquare_withScalars, addPiece_withScalars,
      clear_add_cancel _ _ _ hWF1 hT hbok hempty1,
      add_clear_cancel p _ hwf hF hbok]
    exact Position.ext2 _ p rfl rfl rfl (show p.ply + 1 - 1 = p.ply from by omega) rfl rfl

theorem undo_do_aux_promo (p : Position) (m : Nat) (hwf : WF p) (hok : DoOK p m)
    (hty : mvKind m = PROMOTION) :
    undoCore { (dmShuffle p m).2 with
               ply := p.ply + 1,
               toMove := p.toMove.opp,
               state := { cur := { p.state.cur with captured := (dmShuffle p m).1 },
                          prev := p.state.cur :: p.state.prev } }
      m p.state.cur p.state.prev = p := by
  obtain ⟨hne, hF, hT, hbok, hbcol, hcapcol, hprom, hep, hcas⟩ := hok
  obtain ⟨hkpawn, hpr1, hpr2⟩ := hprom hty
  have hprok : pieceIsOk (pieceNew (mvPromo m) p.toMove) = true :=
    pieceIsOk_pieceNew _ _ (by omega)
  have hpe : pieceNew PAWN p.toMove = pieceOn p (mvFrom m) := by
    rw [← hkpawn, ← hbcol, piece_eta _ hbok]
  have hb1 : (clearSquare p (mvFrom m)).1 = pieceOn p (mvFrom m) := clearSquare_fst p _
  have hcapP1 : pieceOn (clearSquare p (mvFrom m)).2 (mvTo m) = pieceOn p (mvTo m) :=
    pieceOn_clearSquare_ne p _ _ (Ne.symm hne)
  have hcap1 : (clearSquare (clearSquare p (mvFrom m)).2 (mvTo m)).1 = pieceOn p (mvTo m) := by
    rw [clearSquare_fst, hcapP1]
  have hWF1 : WF (clearSquare p (mvFrom m)).2 := WF_clearSquare p _ hwf
  have hlen1 : (clearSquare p (mvFrom m)).2.board.length = 64 := hWF1.1
  rw [dmShuffle_promo p m hty]
  rw [hcap1]
  simp only [undoCore, Color.opp_opp, hty,
    if_pos (show PROMOTION = PROMOTION from rfl), if_true,
    if_neg (show ¬(PROMOTION = ENPASSANT) from by decide),
    if_neg (show ¬(PROMOTION = CASTLE) from by decide)]
  by_cases hcap : pieceIsOk (pieceOn p (mvTo m)) = true
  · have hWF2 : WF (clearSquare (clearSquare p (mvFrom m)).2 (mvTo m)).2 :=
      WF_clearSquare _ _ hWF1
    have hP2T : pieceOn (clearSquare (clearSquare p (mvFrom m)).2 (mvTo m)).2 (mvTo m)
        = pNULL := by
      rw [pieceOn_clearSquare, if_pos ⟨by rw [hcapP1]; exact hcap, rfl, by omega⟩]
    rw [if_pos hcap]
    simp only [clearSquare_withScalars, addPiece_withScalars, hpe,
      clear_add_cancel _ _ _ hWF2 hT hprok hP2T,
      clearSquare_addPiece_comm_snd _ (mvFrom m) (mvTo m) _ hWF1 hF hT hne hbok,
      add_clear_cancel p _ hwf hF hbok,
      add_clear_cancel p _ hwf hT hcap]
    exact Position.ext2 _ p rfl rfl rfl (show p.ply + 1 - 1 = p.ply from by omega) rfl rfl
  · have hcapf : pieceIsOk (pieceOn p (mvTo m)) = false := by simpa using hcap
    have hquiet : pieceOn p (mvTo m) = pNULL := cell_null_of_not_ok p hwf _ hT hcapf
    have hP1e : clearSquare (clearSquare p (mvFrom m)).2 (mvTo m)
        = (pieceOn p (mvTo m), (clearSquare p (mvFrom m)).2) := by
      rw [clearSquare_empty _ _ (by rw [hcapP1]; exact hcapf), hcapP1]
    have hempty1 : pieceOn (clearSquare p (mvFrom m)).2 (mvTo m) = pNULL := by
      rw [hcapP1]; exact hquiet
    rw [if_neg hcap]
    simp only [hP1e, clearSquare_withScalars, addPiece_withScalars, hpe,
      clear_add_cancel _ _ _ hWF1 hT hprok hempty1,
      add_clear_cancel p _ hwf hF hbok]
    exact Position.ext2 _ p rfl rfl rfl (show p.ply + 1 - 1 = p.ply from by omega) rfl rfl

theorem undo_do_aux_ep (p : Position) (m : Nat) (hwf : WF p) (hok : DoOK p m)
    (hty : mvKind m = ENPASSANT) :
    undoCore { (dmShuffle p m).2 with
               ply := p.ply + 1,
               toMove := p.toMove.opp,
               state := { cur := { p.state.cur with captured := (dmShuffle p m).1 },
                          prev := p.state.cur :: p.state.prev } }
      m p.state.cur p.state.prev = p := by
  obtain ⟨hne, hF, hT, hbok, hbcol, hcapcol, hprom, hep, hcas⟩ := hok
  obtain ⟨hTnull, hkpawn, hc64, hcF, hcT, hcpc⟩ := hep hty
  have hcapf : pieceIsOk (pieceOn p (mvTo m)) = false := by
    rw [hTnull]; exact pieceIsOk_pNULL
  have hcapok : pieceIsOk (pieceOn p (getSquare (pawnPush p.toMove.opp (sqBB (mvTo m)))))
      = true := by
    rw [hcpc]; exact pieceIsOk_pieceNew _ _ (by decide)
  have hb1 : (clearSquare p (mvFrom m)).1 = pieceOn p (mvFrom m) := clearSquare_fst p _
  have hcapP1 : pieceOn (clearSquare p (mvFrom m)).2 (mvTo m) = pieceOn p (mvTo m) :=
    pieceOn_clearSquare_ne p _ _ (Ne.symm hne)
  have hWF1 : WF (clearSquare p (mvFrom m)).2 := WF_clearSquare p _ hwf
  have hP1e : clearSquare (clearSquare p (mvFrom m)).2 (mvTo m)
      = (pieceOn p (mvTo m), (clearSquare p (mvFrom m)).2) := by
    rw [clearSquare_empty _ _ (by rw [hcapP1]; exact hcapf), hcapP1]
  have hWFZ : WF (clearSquare (clearSquare p (mvFrom m)).2
      (getSquare (pawnPush p.toMove.opp (sqBB (mvTo m))))).2 := WF_clearSquare _ _ hWF1
  have h31 : (clearSquare (addPiece (clearSquare p (mvFrom m)).2 (mvTo m)
        (pieceOn p (mvFrom m))) (getSquare (pawnPush p.toMove.opp (sqBB (mvTo m))))).1
      = pieceOn p (getSquare (pawnPush p.toMove.opp (sqBB (mvTo m)))) := by
    rw [clearSquare_fst, pieceOn_addPiece_ne _ _ _ _ hcT, pieceOn_clearSquare_ne _ _ _ hcF]
  have hX : (clearSquare (addPiece (clearSquare p (mvFrom m)).2 (mvTo m)
        (pieceOn p (mvFrom m))) (getSquare (pawnPush p.toMove.opp (sqBB (mvTo m))))).2
      = addPiece (clearSquare (clearSquare p (mvFrom m)).2
          (getSquare (pawnPush p.toMove.opp (sqBB (mvTo m))))).2 (mvTo m)
          (pieceOn p (mvFrom m)) :=
    (clearSquare_addPiece_comm_snd _ (mvTo m) _ _ hWF1 hT hc64 (Ne.symm hcT) hbok).symm
  have hZT : pieceOn (clearSquare (clearSquare p (mvFrom m)).2
      (getSquare (pawnPush p.toMove.opp (sqBB (mvTo m))))).2 (mvTo m) = pNULL := by
    rw [pieceOn_clearSquare_ne _ _ _ (Ne.symm hcT), hcapP1]
    exact hTnull
  rw [dmShuffle_ep p m hty]
  rw [hb1]
  simp only [hP1e, h31, hX]
  simp only [undoCore, Color.opp_opp, hty,
    if_neg (show ¬(ENPASSANT = PROMOTION) from by decide),
    if_pos (show ENPASSANT = ENPASSANT from rfl), if_true,
    if_neg (show ¬(ENPASSANT = CASTLE) from by decide)]
  rw [if_pos hcapok]
  simp only [clearSquare_withScalars, addPiece_withScalars,
    clear_add_cancel _ _ _ hWFZ hT hbok hZT,
    clearSquare_addPiece_comm_snd _ (mvFrom m)
      (getSquare (pawnPush p.toMove.opp (sqBB (mvTo m)))) _ hWF1 hF hc64 (Ne.symm hcF) hbok,
    add_clear_cancel p (mvFrom m) hwf hF hbok,
    add_clear_cancel p (getSquare (pawnPush p.toMove.opp (sqBB (mvTo m)))) hwf hc64 hcapok]
  exact Position.ext2 _ p rfl rfl rfl (show p.ply + 1 - 1 = p.ply from by omega) rfl rfl

set_option maxHeartbeats 1000000 in
theorem undo_do_aux_castle_core (p : Position) (m : Nat) (hwf : WF p) (rf df : Nat)
    (hne : mvFrom m ≠ mvTo m) (hF : mvFrom m < 64) (hT : mvTo m < 64)
    (hbok : pieceIsOk (pieceOn p (mvFrom m)) = true)
    (hTnull : pieceOn p (mvTo m) = pNULL)
    (hbr : rankRelative 0 p.toMove = rankOf (mvFrom m))
    (hrf : rf < 8) (hdf : df < 8)
    (hrookpc : pieceOn p (sqCreate rf (rankOf (mvFrom m))) = pieceNew ROOK p.toMove)
    (hdstnull : pieceOn p (sqCreate df (rankOf (mvFrom m))) = pNULL)
    (hrsF : sqCreate rf (rankOf (mvFrom m)) ≠ mvFrom m)
    (hrsT : sqCreate rf (rankOf (mvFrom m)) ≠ mvTo m)
    (hrdF : sqCreate df (rankOf (mvFrom m)) ≠ mvFrom m)
    (hrdT : sqCreate df (rankOf (mvFrom m)) ≠ mvTo m)
    (hrsrd : sqCreate rf (rankOf (mvFrom m)) ≠ sqCreate df (rankOf (mvFrom m)))
    (hty : mvKind m = CASTLE)
    (hpair : (if fileOf (mvTo m) = 6 then ((5 : Nat), (7 : Nat)) else (3, 0)) = (df, rf)) :
    undoCore { addPiece
                 (clearSquare (addPiece (clearSquare p (mvFrom m)).2 (mvTo m)
                    (pieceOn p (mvFrom m))) (sqCreate rf (rankOf (mvFrom m)))).2
                 (sqCreate df (rankOf (mvFrom m)))
                 (clearSquare (addPiece (clearSquare p (mvFrom m)).2 (mvTo m)
                    (pieceOn p (mvFrom m))) (sqCreate rf (rankOf (mvFrom m)))).1 with
               ply := p.ply + 1,
               toMove := p.toMove.opp,
               state := { cur := { p.state.cur with captured := pieceOn p (mvTo m) },
                          prev := p.state.cur :: p.state.prev } }
      m p.state.cur p.state.prev = p := by
  have hrs64 : sqCreate rf (rankOf (mvFrom m)) < 64 := sqCreate_lt _ _ hrf (rankOf_lt _)
  have hrd64 : sqCreate df (rankOf (mvFrom m)) < 64 := sqCreate_lt _ _ hdf (rankOf_lt _)
  have hrok : pieceIsOk (pieceOn p (sqCreate rf (rankOf (mvFrom m)))) = true := by
    rw [hrookpc]; exact pieceIsOk_pieceNew _ _ (by decide)
  have hcapneg : ¬(pieceIsOk (pieceOn p (mvTo m)) = true) := by
    rw [hTnull, pieceIsOk_pNULL]; exact Bool.false_ne_true
  have hcapP1 : pieceOn (clearSquare p (mvFrom m)).2 (mvTo m) = pieceOn p (mvTo m) :=
    pieceOn_clearSquare_ne p _ _ (Ne.symm hne)
  have hWF1 : WF (clearSquare p (mvFrom m)).2 := WF_clearSquare p _ hwf
  have h51 : (clearSquare (addPiece (clearSquare p (mvFrom m)).2 (mvTo m)
        (pieceOn p (mvFrom m))) (sqCreate rf (rankOf (mvFrom m)))).1
      = pieceOn p (sqCreate rf (rankOf (mvFrom m))) := by
    rw [clearSquare_fst, pieceOn_addPiece_ne _ _ _ _ hrsT, pieceOn_clearSquare_ne _ _ _ hrsF]
  have hY : (clearSquare (addPiece (clearSquare p (mvFrom m)).2 (mvTo m)
        (pieceOn p (mvFrom m))) (sqCreate rf (rankOf (mvFrom m)))).2
      = addPiece (clearSquare (clearSquare p (mvFrom m)).2
          (sqCreate rf (rankOf (mvFrom m)))).2 (mvTo m) (pieceOn p (mvFrom m)) :=
    (clearSquare_addPiece_comm_snd _ (mvTo m) _ _ hWF1 hT hrs64 (Ne.symm hrsT) hbok).symm
  have hWFZ : WF (clearSquare (clearSquare p (mvFrom m)).2
      (sqCreate rf (rankOf (mvFrom m)))).2 := WF_clearSquare _ _ hWF1
  have hZRD : pieceOn (clearSquare (clearSquare p (mvFrom m)).2
      (sqCreate rf (rankOf (mvFrom m)))).2 (sqCreate df (rankOf (mvFrom m))) = pNULL := by
    rw [pieceOn_clearSquare_ne _ _ _ (Ne.symm hrsrd), pieceOn_clearSquare_ne _ _ _ hrdF]
    exact hdstnull
  have hZT : pieceOn (clearSquare (clearSquare p (mvFrom m)).2
      (sqCreate rf (rankOf (mvFrom m)))).2 (mvTo m) = pNULL := by
    rw [pieceOn_clearSquare_ne _ _ _ (Ne.symm hrsT), hcapP1]
    exact hTnull
  have hWFW : WF (addPiece (clearSquare (clearSquare p (mvFrom m)).2
      (sqCreate rf (rankOf (mvFrom m)))).2 (sqCreate df (rankOf (mvFrom m)))
      (pieceOn p (sqCreate rf (rankOf (mvFrom m))))) :=
    WF_addPiece _ _ _ hWFZ hrd64 hrok hZRD
  have hWT : pieceOn (addPiece (clearSquare (clearSquare p (mvFrom m)).2
      (sqCreate rf (rankOf (mvFrom m)))).2 (sqCreate df (rankOf (mvFrom m)))
      (pieceOn p (sqCreate rf (rankOf (mvFrom m))))) (mvTo m) = pNULL := by
    rw [pieceOn_addPiece_ne _ _ _ _ (Ne.symm hrdT), hZT]
  have hZZ : addPiece (addPiece (clearSquare (clearSquare p (mvFrom m)).2
        (sqCreate rf (rankOf (mvFrom m)))).2 (mvTo m) (pieceOn p (mvFrom m)))
        (sqCreate df (rankOf (mvFrom m))) (pieceOn p (sqCreate rf (rankOf (mvFrom m))))
      = addPiece (addPiece (clearSquare (clearSquare p (mvFrom m)).2
          (sqCreate rf (rankOf (mvFrom m)))).2 (sqCreate df (rankOf (mvFrom m)))
          (pieceOn p (sqCreate rf (rankOf (mvFrom m))))) (mvTo m) (pieceOn p (mvFrom m)) :=
    addPiece_addPiece_comm _ _ _ _ _ hWFZ hT hrd64 (Ne.symm hrdT) hbok hrok
  have hp1comm : addPiece (addPiece (clearSquare (clearSquare p (mvFrom m)).2
        (sqCreate rf (rankOf (mvFrom m)))).2 (sqCreate df (rankOf (mvFrom m)))
        (pieceOn p (sqCreate rf (rankOf (mvFrom m))))) (mvFrom m) (pieceOn p (mvFrom m))
      = addPiece (addPiece (clearSquare (clearSquare p (mvFrom m)).2
          (sqCreate rf (rankOf (mvFrom m)))).2 (mvFrom m) (pieceOn p (mvFrom m)))
          (sqCreate df (rankOf (mvFrom m))) (pieceOn p (sqCreate rf (rankOf (mvFrom m)))) :=
    addPiece_addPiece_comm _ _ _ _ _ hWFZ hrd64 hF hrdF hrok hbok
  have hZF : addPiece (clearSquare (clearSquare p (mvFrom m)).2
        (sqCreate rf (rankOf (mvFrom m)))).2 (mvFrom m) (pieceOn p (mvFrom m))
      = (clearSquare (addPiece (clearSquare p (mvFrom m)).2 (mvFrom m)
          (pieceOn p (mvFrom m))) (sqCreate rf (rankOf (mvFrom m)))).2 :=
    clearSquare_addPiece_comm_snd _ (mvFrom m) _ _ hWF1 hF hrs64 (Ne.symm hrsF) hbok
  have hWFc : WF (clearSquare p (sqCreate rf (rankOf (mvFrom m)))).2 :=
    WF_clearSquare _ _ hwf
  have hcRD : pieceOn (clearSquare p (sqCreate rf (rankOf (mvFrom m)))).2
      (sqCreate df (rankOf (mvFrom m))) = pNULL := by
    rw [pieceOn_clearSquare_ne _ _ _ (Ne.symm hrsrd)]
    exact hdstnull
  simp only [undoCore, Color.opp_opp, hty,
    if_neg (show ¬(CASTLE = PROMOTION) from by decide),
    if_neg (show ¬(CASTLE = ENPASSANT) from by decide),
    if_pos (show CASTLE = CASTLE from rfl), if_true,
    if_neg hcapneg, hpair]
  simp only [h51, hY, hZZ, clearSquare_withScalars, addPiece_withScalars,
    clear_add_cancel _ _ _ hWFW hT hbok hWT,
    hp1comm, hZF, add_clear_cancel p (mvFrom m) hwf hF hbok, hbr,
    clear_add_cancel _ _ _ hWFc hrd64 hrok hcRD,
    add_clear_cancel p (sqCreate rf (rankOf (mvFrom m))) hwf hrs64 hrok]
  exact Position.ext2 _ p rfl rfl rfl (show p.ply + 1 - 1 = p.ply from by omega) rfl rfl

theorem undo_do_aux_castle (p : Position) (m : Nat) (hwf : WF p) (hok : DoOK p m)
    (hty : mvKind m = CASTLE) :
    undoCore { (dmShuffle p m).2 with
               ply := p.ply + 1,
               toMove := p.toMove.opp,
               state := { cur := { p.state.cur with captured := (dmShuffle p m).1 },
                          prev := p.state.cur :: p.state.prev } }
      m p.state.cur p.state.prev = p := by
  obtain ⟨hne, hF, hT, hbok, hbcol, hcapcol, hprom, hep, hcas⟩ := hok
  obtain ⟨hTnull, hkking, hfrom, hfile, hrank, hrookpc, hdstnull, hrsF, hrsT, hrdF, hrdT,
    hrsrd⟩ := hcas hty
  have hcapf : pieceIsOk (pieceOn p (mvTo m)) = false := by
    rw [hTnull]; exact pieceIsOk_pNULL
  have hb1 : (clearSquare p (mvFrom m)).1 = pieceOn p (mvFrom m) := clearSquare_fst p _
  have hcapP1 : pieceOn (clearSquare p (mvFrom m)).2 (mvTo m) = pieceOn p (mvTo m) :=
    pieceOn_clearSquare_ne p _ _ (Ne.symm hne)
  have hP1e : clearSquare (clearSquare p (mvFrom m)).2 (mvTo m)
      = (pieceOn p (mvTo m), (clearSquare p (mvFrom m)).2) := by
    rw [clearSquare_empty _ _ (by rw [hcapP1]; exact hcapf), hcapP1]
  have hbr : rankRelative 0 p.toMove = rankOf (mvFrom m) := by
    rw [hfrom, rankOf_sqRelative4]
  simp only [dmShuffle_castle p m hty, hP1e, hb1]
  rcases hfile with hf | hf
  · rw [hf] at hrookpc hdstnull hrsF hrsT hrdF hrdT hrsrd ⊢
    norm_num at hrookpc hdstnull hrsF hrsT hrdF hrdT hrsrd ⊢
    exact undo_do_aux_castle_core p m hwf 0 3 hne hF hT hbok hTnull hbr (by decide) (by decide)
      hrookpc hdstnull hrsF hrsT hrdF hrdT hrsrd hty (by rw [hf]; norm_num)
  · rw [hf] at hrookpc hdstnull hrsF hrsT hrdF hrdT hrsrd ⊢
    norm_num at hrookpc hdstnull hrsF hrsT hrdF hrdT hrsrd ⊢
    exact undo_do_aux_castle_core p m hwf 7 5 hne hF hT hbok hTnull hbr (by decide) (by decide)
      hrookpc hdstnull hrsF hrsT hrdF hrdT hrsrd hty (by rw [hf]; norm_num)

/-- C2: for every well-formed position (`WF`: declared array lengths, every
board cell a valid piece or NULL, and color/kind bitboards the exact
per-square images of the board array) and every move satisfying `DoOK` (the
`debug_assert` contract of `do_move`: distinct in-range squares, a valid
mover of the side to move, captures only of the opponent, and the
promotion / en-passant / castle side conditions), `undo_move` after
`do_move` restores the position exactly: board array, per-kind and
per-color bitboards, ply, side to move, and the whole `State` including the
popped `prev` chain. -/
theorem c2_do_undo (p : Position) (m : Nat) (hwf : WF p) (hok : DoOK p m) :
    undoMove (doMove p m) m = p := by
  have h1 : undoMove (doMove p m) m
      = undoCore { (dmShuffle p m).2 with
                   ply := p.ply + 1,
                   toMove := p.toMove.opp,
                   state := { cur := { p.state.cur with captured := (dmShuffle p m).1 },
                              prev := p.state.cur :: p.state.prev } }
          m p.state.cur p.state.prev := rfl
  rw [h1]
  have hk : mvKind m = NORMAL ∨ mvKind m = ENPASSANT ∨ mvKind m = PROMOTION ∨
      mvKind m = CASTLE := by
    have h4 := mvKind_lt m
    unfold NORMAL ENPASSANT PROMOTION CASTLE
    omega
  rcases hk with h | h | h | h
  · exact undo_do_aux_normal p m hwf hok h
  · exact undo_do_aux_ep p m hwf hok h
  · exact undo_do_aux_promo p m hwf hok h
  · exact undo_do_aux_castle p m hwf hok h

theorem c2_do_undo_witness :
    WF startPos ∧ DoOK startPos (mvNew 12 28) ∧
    undoMove (doMove startPos (mvNew 12 28)) (mvNew 12 28) = startPos :=
  ⟨by unfold WF WFColor WFKind; decide,
   by unfold DoOK; decide,
   c2_do_undo startPos (mvNew 12 28) (by unfold WF WFColor WFKind; decide)
     (by unfold DoOK; decide)⟩

/-- C10 witness: the bounds statement applied to squares a1 and h8 with
the White pawn table. -/
theorem c10_attack_table_bounds_witness :
    ((knightAttacksTable[(0 : Nat)]?.isSome = true ∧
      kingAttacksTable[(0 : Nat)]?.isSome = true ∧
      (pawnAttacksTable[(0 : Nat)]?.bind (fun row => row[Color.white.toNat]?)).isSome = true ∧
      (betweenTable[(0 : Nat)]?.bind (fun row => row[(63 : Nat)]?)).isSome = true ∧
      (lineTable[(0 : Nat)]?.bind (fun row => row[(63 : Nat)]?)).isSome = true) ∧
     (knightAttacksTable[sqNULL]? = none ∧ kingAttacksTable[sqNULL]? = none ∧
      pawnAttacksTable[sqNULL]? = none ∧ betweenTable[sqNULL]? = none ∧
      lineTable[sqNULL]? = none)) :=
  c10_attack_table_bounds 0 63 Color.white (by decide) (by decide)

/-! C9 development: the rank loop of the FEN writer versus the placement
loop of the parser, and the field round trips. -/

theorem emit_foldl (p : Position) (i : Nat) :
    ∀ (l : List Nat) (acc : List Char) (r : Nat),
      (let res := l.foldl (fun (acc : List Char × Nat) j =>
          let s := (7 - i) * 8 + j
          let pc := pieceOn p s
          if pieceIsOk pc then
            (acc.1 ++ (if acc.2 > 0 then [digitChar acc.2] else []) ++ [pieceChar pc], 0)
          else (acc.1, acc.2 + 1)) (acc, r)
       res.1 ++ (if res.2 > 0 then [digitChar res.2] else []))
      = acc ++ emitList p ((7 - i) * 8) l r := by
  intro l
  induction l with
  | nil => intro acc r; simp [emitList]
  | cons j js ih =>
    intro acc r
    simp only [List.foldl_cons]
    by_cases hok : pieceIsOk (pieceOn p ((7 - i) * 8 + j)) = true
    · simp only [hok, if_true, ih, emitList]
      simp [List.append_assoc]
    · simp only [Bool.not_eq_true] at hok
      simp only [hok, Bool.false_eq_true, if_false, ih, emitList]

theorem fenRankChars_eq_emitList (p : Position) (i : Nat) :
    fenRankChars p i = emitList p ((7 - i) * 8) (List.range' 0 8) 0 := by
  rw [fenRankChars, ← List.range_eq_range']
  exact emit_foldl p i (List.range 8) [] 0

theorem digitChar_facts : ∀ r, r ≤ 8 →
    (digitChar r ≠ ' ' ∧ (digitChar r).isDigit = true ∧ (digitChar r).toNat - 48 = r) := by
  decide

theorem pieceChar_facts : ∀ pc, pc < 15 → pieceIsOk pc = true →
    (pieceChar pc ≠ ' ' ∧ (pieceChar pc).isDigit = false ∧ pieceChar pc ≠ '/' ∧
     pieceFromChar (pieceChar pc) = some pc) := by
  decide

theorem pieceIsOk_lt (pc : Nat) (h : pieceIsOk pc = true) : pc < 15 := by
  simp [pieceIsOk] at h
  omega

theorem parsePlacement_slash (cs : List Char) (s : Nat) (q : Position) :
    parsePlacement ('/' :: cs) s q = parsePlacement cs (s - 16) q := by
  simp [parsePlacement, Char.isDigit]

theorem parsePlacement_space (cs : List Char) (s : Nat) (q : Position) :
    parsePlacement (' ' :: cs) s q = some (q, cs) := by
  simp [parsePlacement]

theorem parse_emitList (p : Position) (base : Nat) :
    ∀ (n j r : Nat) (q : Position) (K : List Char), r ≤ j → j + n ≤ 8 →
      parsePlacement (emitList p base (List.range' j n) r ++ K) (base + j - r) q
      = parsePlacement K (base + j + n) (placeFiles p base (List.range' j n) q) := by
  intro n
  induction n with
  | zero =>
    intro j r q K hr hj
    simp only [List.range', emitList, placeFiles]
    by_cases hr0 : r > 0
    · obtain ⟨hd1, hd2, hd3⟩ := digitChar_facts r (by omega)
      rw [if_pos hr0]
      simp only [List.cons_append, List.nil_append, parsePlacement]
      rw [if_neg hd1, if_pos hd2, hd3]
      have : base + j - r + r = base + j + 0 := by omega
      rw [this]
      rfl
    · rw [if_neg hr0]
      have : base + j - r = base + j + 0 := by omega
      rw [List.nil_append, this]
  | succ n ih =>
    intro j r q K hr hj
    rw [List.range'_succ]
    simp only [emitList, placeFiles]
    by_cases hok : pieceIsOk (pieceOn p (base + j)) = true
    · obtain ⟨hp1, hp2, hp3, hp4⟩ :=
        pieceChar_facts _ (pieceIsOk_lt _ hok) hok
      rw [if_pos hok]
      by_cases hr0 : r > 0
      · obtain ⟨hd1, hd2, hd3⟩ := digitChar_facts r (by omega)
        rw [if_pos hr0]
        simp only [List.cons_append, List.nil_append, parsePlacement]
        rw [if_neg hd1, if_pos hd2, hd3]
        have he1 : base + j - r + r = base + j := by omega
        rw [he1, if_neg hp1, hp2, if_neg hp3, hp4]
        simp only [Bool.false_eq_true, if_false]
        have := ih (j + 1) 0 (addPiece q (base + j) (pieceOn p (base + j))) K
          (by omega) (by omega)
        simp only [Nat.sub_zero] at this
        have he2 : base + j + 1 = base + (j + 1) := by omega
        have he3 : base + j + (n + 1) = base + (j + 1) + n := by omega
        simp only [List.append_eq]
        rw [he2, he3, this, if_pos hok]
      · rw [if_neg hr0]
        simp only [List.nil_append, List.cons_append, parsePlacement]
        rw [if_neg hp1, hp2, if_neg hp3, hp4]
        simp only [Bool.false_eq_true, if_false]
        have he1 : base + j - r = base + j := by omega
        have := ih (j + 1) 0 (addPiece q (base + j) (pieceOn p (base + j))) K
          (by omega) (by omega)
        simp only [Nat.sub_zero] at this
        have he2 : base + j + 1 = base + (j + 1) := by omega
        have he3 : base + j + (n + 1) = base + (j + 1) + n := by omega
        simp only [List.append_eq]
        rw [he1, he2, he3, this, if_pos hok]
    · simp only [Bool.not_eq_true] at hok
      rw [if_neg (by simp [hok])]
      have := ih (j + 1) (r + 1) q K (by omega) (by omega)
      have he1 : base + (j + 1) - (r + 1) = base + j - r := by omega
      have he2 : base + (j + 1) + n = base + j + (n + 1) := by omega
      rw [he1, he2] at this
      rw [this, if_neg (by simp [hok] : ¬(pieceIsOk (pieceOn p (base + j)) = true))]

theorem parse_rank (p : Position) (b : Nat) (q : Position) (K : List Char) :
    parsePlacement (emitList p b (List.range' 0 8) 0 ++ K) b q
      = parsePlacement K (b + 8) (placeFiles p b (List.range' 0 8) q) := by
  have h := parse_emitList p b 8 0 0 q K (by omega) (by omega)
  simpa using h

theorem placeFiles_scalars (p : Position) (b : Nat) :
    ∀ (js : List Nat) (q : Position),
      (placeFiles p b js q).state = q.state ∧
      (placeFiles p b js q).toMove = q.toMove ∧
      (placeFiles p b js q).ply = q.ply ∧
      (placeFiles p b js q).board.length = q.board.length := by
  intro js
  induction js with
  | nil => intro q; exact ⟨rfl, rfl, rfl, rfl⟩
  | cons j js ih =>
    intro q
    simp only [placeFiles]
    have hq' : (if pieceIsOk (pieceOn p (b + j)) = true
          then addPiece q (b + j) (pieceOn p (b + j)) else q).state = q.state ∧
        (if pieceIsOk (pieceOn p (b + j)) = true
          then addPiece q (b + j) (pieceOn p (b + j)) else q).toMove = q.toMove ∧
        (if pieceIsOk (pieceOn p (b + j)) = true
          then addPiece q (b + j) (pieceOn p (b + j)) else q).ply = q.ply ∧
        (if pieceIsOk (pieceOn p (b + j)) = true
          then addPiece q (b + j) (pieceOn p (b + j)) else q).board.length
          = q.board.length := by
      split
      · exact ⟨rfl, rfl, rfl, by simp [addPiece]⟩
      · exact ⟨rfl, rfl, rfl, rfl⟩
    obtain ⟨h1, h2, h3, h4⟩ := ih (if pieceIsOk (pieceOn p (b + j)) = true
        then addPiece q (b + j) (pieceOn p (b + j)) else q)
    exact ⟨h1.trans hq'.1, h2.trans hq'.2.1, h3.trans hq'.2.2.1, h4.trans hq'.2.2.2⟩

theorem placeFiles_pieceOn (p : Position) (b : Nat) :
    ∀ (n j : Nat) (q : Position) (t : Nat), q.board.length = 64 → b + j + n ≤ 64 →
      pieceOn (placeFiles p b (List.range' j n) q) t
        = if (b + j ≤ t ∧ t < b + j + n) ∧ pieceIsOk (pieceOn p t) = true
          then pieceOn p t else pieceOn q t := by
  intro n
  induction n with
  | zero =>
    intro j q t hq hb
    simp only [List.range', placeFiles]
    rw [if_neg (fun h => by omega)]
  | succ n ih =>
    intro j q t hq hb
    rw [List.range'_succ]
    simp only [placeFiles]
    by_cases h1 : b + j = t
    · subst h1
      by_cases hok : pieceIsOk (pieceOn p (b + j)) = true
      · rw [if_pos hok, ih (j + 1) _ _ (by simp [addPiece, hq]) (by omega),
            if_neg (fun h => by omega),
            pieceOn_addPiece, if_pos ⟨rfl, by omega⟩,
            if_pos ⟨⟨by omega, by omega⟩, hok⟩]
      · rw [if_neg hok, ih (j + 1) _ _ hq (by omega), if_neg (fun h => by omega),
            if_neg (fun h => hok h.2)]
    · have hcond : ((b + (j + 1) ≤ t ∧ t < b + (j + 1) + n) ∧
          pieceIsOk (pieceOn p t) = true) ↔
          ((b + j ≤ t ∧ t < b + j + (n + 1)) ∧ pieceIsOk (pieceOn p t) = true) := by
        constructor
        · rintro ⟨⟨ha, hb2⟩, hc⟩; exact ⟨⟨by omega, by omega⟩, hc⟩
        · rintro ⟨⟨ha, hb2⟩, hc⟩; exact ⟨⟨by omega, by omega⟩, hc⟩
      by_cases hok : pieceIsOk (pieceOn p (b + j)) = true
      · rw [if_pos hok, ih (j + 1) _ _ (by simp [addPiece, hq]) (by omega),
            pieceOn_addPiece,
            if_neg (show ¬(b + j = t ∧ b + j < q.board.length) from fun hc => h1 hc.1)]
        simp only [hcond]
      · rw [if_neg hok, ih (j + 1) _ _ hq (by omega)]
        simp only [hcond]

theorem pieceOn_positionDefault (t : Nat) : pieceOn positionDefault t = pNULL := by
  unfold pieceOn positionDefault
  simp only [List.getD_eq_getElem?_getD, List.getElem?_replicate]
  split <;> rfl

theorem list_eq_of_getD (d : Nat) : ∀ (l1 l2 : List Nat), l1.length = l2.length →
    (∀ i, i < l1.length → l1.getD i d = l2.getD i d) → l1 = l2 := by
  intro l1
  induction l1 with
  | nil =>
    intro l2 hlen _
    cases l2 with
    | nil => rfl
    | cons x xs => simp at hlen
  | cons x xs ih =>
    intro l2 hlen hcell
    cases l2 with
    | nil => simp at hlen
    | cons y ys =>
      have h0 := hcell 0 (by simp)
      simp only [List.getD_cons_zero] at h0
      rw [h0, ih ys (by simpa using hlen)
        (fun i hi => by simpa using hcell (i + 1) (by simpa using Nat.succ_lt_succ hi))]

theorem parse_castle (c4 : Nat) (h : c4 < 16) (q : Position) (K : List Char)
    (hq : q.state.cur.castle = 0) :
    parseCastleField
      ((if c4 = 0 then ['-']
        else (if (castleFor c4 .white).1 then ['K'] else []) ++
             (if (castleFor c4 .white).2 then ['Q'] else []) ++
             (if (castleFor c4 .black).1 then ['k'] else []) ++
             (if (castleFor c4 .black).2 then ['q'] else [])) ++ ' ' :: K) q
      = some ({ q with state := { q.state with cur := { q.state.cur with castle := c4 } } },
              K) := by
  interval_cases c4 <;> simp [parseCastleField, setCastleBits, castleFor, hq] <;>
    (try rw [← hq]) <;> rfl

theorem parse_ep (e : Nat) (he : e ≤ 64) (q : Position) :
    parseEpField (if sqIsOk e then squareChars e else ['-']) q
      = some (setEp q e) := by
  by_cases hlt : e < 64
  · have hfacts : ∀ e2, e2 < 64 →
        ((Char.ofNat (97 + fileOf e2)) ≠ '-' ∧
         fileFromChar (Char.ofNat (97 + fileOf e2)) = some (fileOf e2) ∧
         rankFromChar (Char.ofNat (49 + rankOf e2)) = some (rankOf e2) ∧
         sqCreate (fileOf e2) (rankOf e2) = e2) := by decide
    obtain ⟨h1, h2, h3, h4⟩ := hfacts e hlt
    rw [if_pos (by simp [sqIsOk]; omega)]
    simp only [squareChars, parseEpField]
    rw [if_neg h1]
    simp only [h2, h3, h4]
  · have he64 : e = 64 := by omega
    rw [if_neg (by simp [sqIsOk]; omega)]
    simp only [parseEpField, if_true]
    rw [he64]

theorem fenOf_congr (q p : Position) (hb : q.board = p.board)
    (ht : q.toMove = p.toMove)
    (hc : q.state.cur.castle = p.state.cur.castle)
    (he : q.state.cur.ep = p.state.cur.ep) : fenOf q = fenOf p := by
  unfold fenOf fenRankChars pieceOn
  rw [hb, ht, hc, he]

set_option maxHeartbeats 2000000 in
/-- C9: for every renderable configuration (`ValidCfg`: 64 board cells each
a valid piece or NULL, a castle field below 16, and an en-passant square
that is on the board or exactly `Square::NULL`), parsing the rendered FEN
succeeds, and re-rendering the parsed position reproduces the same string:
fields 1-4 round trip (the halfmove/fullmove counters are neither rendered
nor parsed, exactly as in the source). -/
theorem c9_fen_round_trip (p : Position) (hv : ValidCfg p) :
    ∃ q, parseFen (fenOf p) = some q ∧ fenOf q = fenOf p := by
  obtain ⟨hlen, hcells, hcastle, hep⟩ := hv
  -- one rank of parsing, tracking the agree-above / null-below invariant
  have step : ∀ (b : Nat) (q : Position), b + 8 ≤ 64 → q.board.length = 64 →
      (∀ t, t < 64 → b + 8 ≤ t → pieceOn q t = pieceOn p t) →
      (∀ t, t < 64 → t < b + 8 → pieceOn q t = pNULL) →
      (∀ t, t < 64 → b ≤ t →
        pieceOn (placeFiles p b (List.range' 0 8) q) t = pieceOn p t) ∧
      (∀ t, t < 64 → t < b →
        pieceOn (placeFiles p b (List.range' 0 8) q) t = pNULL) ∧
      (placeFiles p b (List.range' 0 8) q).board.length = 64 ∧
      (placeFiles p b (List.range' 0 8) q).state = q.state := by
    intro b q hb hqlen habove hbelow
    refine ⟨?_, ?_, ?_, ?_⟩
    · intro t ht hbt
      rw [placeFiles_pieceOn p b 8 0 q t hqlen (by omega)]
      by_cases hin : b + 0 ≤ t ∧ t < b + 0 + 8
      · by_cases hok : pieceIsOk (pieceOn p t) = true
        · rw [if_pos ⟨hin, hok⟩]
        · rw [if_neg (fun h => hok h.2), hbelow t ht (by omega)]
          rcases hcells t ht with h | h
          · exact absurd h hok
          · exact h.symm
      · rw [if_neg (fun h => hin h.1), habove t ht (by omega)]
    · intro t ht htb
      rw [placeFiles_pieceOn p b 8 0 q t hqlen (by omega), if_neg (fun h => by omega)]
      exact hbelow t ht (by omega)
    · exact ((placeFiles_scalars p b (List.range' 0 8) q).2.2.2).trans hqlen
    · exact (placeFiles_scalars p b (List.range' 0 8) q).1
  have hdlen : positionDefault.board.length = 64 := by simp [positionDefault]
  have s56 := step 56 positionDefault (by omega) hdlen
    (fun t ht h => absurd h (by omega)) (fun t ht _ => pieceOn_positionDefault t)
  have s48 := step 48 _ (by omega) s56.2.2.1
    (fun t ht h => s56.1 t ht (by omega)) (fun t ht h => s56.2.1 t ht (by omega))
  have s40 := step 40 _ (by omega) s48.2.2.1
    (fun t ht h => s48.1 t ht (by omega)) (fun t ht h => s48.2.1 t ht (by omega))
  have s32 := step 32 _ (by omega) s40.2.2.1
    (fun t ht h => s40.1 t ht (by omega)) (fun t ht h => s40.2.1 t ht (by omega))
  have s24 := step 24 _ (by omega) s32.2.2.1
    (fun t ht h => s32.1 t ht (by omega)) (fun t ht h => s32.2.1 t ht (by omega))
  have s16 := step 16 _ (by omega) s24.2.2.1
    (fun t ht h => s24.1 t ht (by omega)) (fun t ht h => s24.2.1 t ht (by omega))
  have s8 := step 8 _ (by omega) s16.2.2.1
    (fun t ht h => s16.1 t ht (by omega)) (fun t ht h => s16.2.1 t ht (by omega))
  have s0 := step 0 _ (by omega) s8.2.2.1
    (fun t ht h => s8.1 t ht (by omega)) (fun t ht h => s8.2.1 t ht (by omega))
  -- the fully parsed placement
  have hQcell : ∀ t, t < 64 →
      pieceOn (placeFiles p 0 (List.range' 0 8)
        (placeFiles p 8 (List.range' 0 8)
        (placeFiles p 16 (List.range' 0 8)
        (placeFiles p 24 (List.range' 0 8)
        (placeFiles p 32 (List.range' 0 8)
        (placeFiles p 40 (List.range' 0 8)
        (placeFiles p 48 (List.range' 0 8)
        (placeFiles p 56 (List.range' 0 8) positionDefault)))))))) t = pieceOn p t :=
    fun t ht => s0.1 t ht (by omega)
  have hQboard : (placeFiles p 0 (List.range' 0 8)
        (placeFiles p 8 (List.range' 0 8)
        (placeFiles p 16 (List.range' 0 8)
        (placeFiles p 24 (List.range' 0 8)
        (placeFiles p 32 (List.range' 0 8)
        (placeFiles p 40 (List.range' 0 8)
        (placeFiles p 48 (List.range' 0 8)
        (placeFiles p 56 (List.range' 0 8) positionDefault)))))))).board = p.board := by
    refine list_eq_of_getD pNULL _ _ (by rw [s0.2.2.1, hlen]) ?_
    intro i hi
    rw [s0.2.2.1] at hi
    exact hQcell i hi
  have hQstate : (placeFiles p 0 (List.range' 0 8)
        (placeFiles p 8 (List.range' 0 8)
        (placeFiles p 16 (List.range' 0 8)
        (placeFiles p 24 (List.range' 0 8)
        (placeFiles p 32 (List.range' 0 8)
        (placeFiles p 40 (List.range' 0 8)
        (placeFiles p 48 (List.range' 0 8)
        (placeFiles p 56 (List.range' 0 8) positionDefault)))))))).state
      = positionDefault.state :=
    (s0.2.2.2.trans (s8.2.2.2.trans (s16.2.2.2.trans (s24.2.2.2.trans
      (s32.2.2.2.trans (s40.2.2.2.trans (s48.2.2.2.trans s56.2.2.2)))))))
  -- split the rendered string
  have hsplit : fenOf p
      = emitList p 56 (List.range' 0 8) 0 ++ '/' ::
        (emitList p 48 (List.range' 0 8) 0 ++ '/' ::
        (emitList p 40 (List.range' 0 8) 0 ++ '/' ::
        (emitList p 32 (List.range' 0 8) 0 ++ '/' ::
        (emitList p 24 (List.range' 0 8) 0 ++ '/' ::
        (emitList p 16 (List.range' 0 8) 0 ++ '/' ::
        (emitList p 8 (List.range' 0 8) 0 ++ '/' ::
        (emitList p 0 (List.range' 0 8) 0 ++ ' ' ::
          (if p.toMove = Color.white then 'w' else 'b') :: ' ' ::
          ((if p.state.cur.castle = 0 then ['-']
            else (if (castleFor p.state.cur.castle .white).1 then ['K'] else []) ++
                 (if (castleFor p.state.cur.castle .white).2 then ['Q'] else []) ++
                 (if (castleFor p.state.cur.castle .black).1 then ['k'] else []) ++
                 (if (castleFor p.state.cur.castle .black).2 then ['q'] else [])) ++ ' ' ::
           (if sqIsOk p.state.cur.ep then squareChars p.state.cur.ep
            else ['-']))))))))) := by
    rw [fenOf, show List.range 8 = [0, 1, 2, 3, 4, 5, 6, 7] from rfl]
    simp only [List.map_cons, List.map_nil, List.flatten_cons, List.flatten_nil,
      fenRankChars_eq_emitList]
    norm_num [List.append_assoc]
  have hplace : parsePlacement (fenOf p) 56 positionDefault
      = some (placeFiles p 0 (List.range' 0 8)
          (placeFiles p 8 (List.range' 0 8)
          (placeFiles p 16 (List.range' 0 8)
          (placeFiles p 24 (List.range' 0 8)
          (placeFiles p 32 (List.range' 0 8)
          (placeFiles p 40 (List.range' 0 8)
          (placeFiles p 48 (List.range' 0 8)
          (placeFiles p 56 (List.range' 0 8) positionDefault))))))),
          (if p.toMove = Color.white then 'w' else 'b') :: ' ' ::
          ((if p.state.cur.castle = 0 then ['-']
            else (if (castleFor p.state.cur.castle .white).1 then ['K'] else []) ++
                 (if (castleFor p.state.cur.castle .white).2 then ['Q'] else []) ++
                 (if (castleFor p.state.cur.castle .black).1 then ['k'] else []) ++
                 (if (castleFor p.state.cur.castle .black).2 then ['q'] else [])) ++ ' ' ::
           (if sqIsOk p.state.cur.ep then squareChars p.state.cur.ep
            else ['-']))) := by
    rw [hsplit, parse_rank p 56, parsePlacement_slash]
    norm_num
    rw [parse_rank p 48, parsePlacement_slash]
    norm_num
    rw [parse_rank p 40, parsePlacement_slash]
    norm_num
    rw [parse_rank p 32, parsePlacement_slash]
    norm_num
    rw [parse_rank p 24, parsePlacement_slash]
    norm_num
    rw [parse_rank p 16, parsePlacement_slash]
    norm_num
    rw [parse_rank p 8, parsePlacement_slash]
    norm_num
    rw [parse_rank p 0]
    norm_num
    rw [parsePlacement_space]
  -- parse the remaining fields and re-render
  cases htm : p.toMove with
  | white =>
    simp only [htm, if_true] at hplace
    apply Exists.intro
    constructor
    · simp only [parseFen, hplace,
        if_pos (show (('w' = 'w' || 'w' = 'b') = true) from by decide),
        if_pos (show (' ' = ' ') from rfl), if_true]
      rw [parse_castle p.state.cur.castle hcastle]
      · simp only []
        rw [parse_ep p.state.cur.ep hep]
        simp only [show ((decide True || decide ('w' = 'b')) = true) from by decide,
          if_true]
        rfl
      · exact congrArg (fun st => st.cur.castle) hQstate
    · refine fenOf_congr _ p ?_ ?_ ?_ ?_
      · exact hQboard
      · exact htm.symm
      · rfl
      · rfl
  | black =>
    simp only [htm] at hplace
    rw [if_neg (show ¬(Color.black = Color.white) from by decide)] at hplace
    apply Exists.intro
    constructor
    · simp only [parseFen, hplace,
        if_pos (show (('b' = 'w' || 'b' = 'b') = true) from by decide),
        if_pos (show (' ' = ' ') from rfl), if_true]
      rw [parse_castle p.state.cur.castle hcastle]
      · simp only []
        rw [parse_ep p.state.cur.ep hep]
        simp only [show ((decide ('b' = 'w') || decide True) = true) from by decide,
          if_true]
        rfl
      · exact congrArg (fun st => st.cur.castle) hQstate
    · refine fenOf_congr _ p ?_ ?_ ?_ ?_
      · exact hQboard
      · exact htm.symm
      · rfl
      · rfl

theorem c9_fen_round_trip_witness :
    ValidCfg startPos ∧
    ∃ q, parseFen (fenOf startPos) = some q ∧ fenOf q = fenOf startPos :=
  ⟨by unfold ValidCfg; decide,
   c9_fen_round_trip startPos (by unfold ValidCfg; decide)⟩

end ChessLib
